import Mathlib

/-!
Verification development for a stock trend-analysis toolkit.

The development shallowly embeds the backtesting core of the repository:

* `calculations/momentum_strategy.py` — time-series momentum (TSM):
  signal generation with a holding-period filter, one-day forward shift,
  strategy returns, trade log and performance metrics;
* `calculations/rsi_mean_reversion.py` — RSI mean-reversion:
  Wilder RSI, Bollinger-style bands, trade simulation with
  take-profit/stop-loss, daily return attribution, metrics and the
  grid-search parameter optimizer;
* `stock_dashboard-2/strategies/sma_letf_strategy.py` — SMA-200
  trend-following on a signal instrument applied to a leveraged ETF.

Conventions of the embedding:

* pandas `Series` of floats become `List ℚ` (exact values) or
  `List (Option ℚ)` where `none` plays the role of `NaN`;
  date indices become list positions `0, 1, 2, …` (the source data
  model guarantees a strictly increasing date index, so comparisons
  of dates coincide with comparisons of positions);
* quantities the source computes with `sqrt`/fractional powers
  (volatilities, annualized metrics, the daily risk-free rate) live in
  `ℝ` via `Real.sqrt`/`Real.rpow`;
* Python exceptions become `Except String`; the error strings are the
  messages raised by the source;
* `x.getD 0` mirrors `fillna(0)`; option-propagating arithmetic mirrors
  NaN propagation; a comparison with `none` is `False`, exactly as a
  comparison with `NaN` is falsy in pandas boolean masks.
-/

namespace StockTrend

/-- NaN-propagating addition on option values. -/
def oadd {α : Type} [Add α] (a b : Option α) : Option α := do pure ((← a) + (← b))

/-- NaN-propagating subtraction on option values. -/
def osub {α : Type} [Sub α] (a b : Option α) : Option α := do pure ((← a) - (← b))

/-- NaN-propagating multiplication on option values. -/
def omul {α : Type} [Mul α] (a b : Option α) : Option α := do pure ((← a) * (← b))

/-- NaN-propagating comparison: `a < b` is false unless both are present,
mirroring pandas comparisons against `NaN`. -/
def olt (a b : Option ℚ) : Bool :=
  match a, b with
  | some x, some y => decide (x < y)
  | _, _ => false

/-- NaN-propagating comparison on reals (as a proposition; comparisons
involving `NaN` are false). -/
def oltR (a b : Option ℝ) : Prop :=
  match a, b with
  | some x, some y => x < y
  | _, _ => False

/-- Elementwise difference `l.diff()` of pandas: position `i` holds
`l[i] - l[i-1]`, with `none` at position `0` and wherever an operand is
missing. -/
def seriesDiff (l : List (Option ℚ)) (i : ℕ) : Option ℚ :=
  match i with
  | 0 => none
  | j + 1 => osub (l.getD (j + 1) none) (l.getD j none)

/-- Elementwise difference of an integer-valued series (the `signal`
column), `none` at position `0` and where an operand is missing. -/
def seriesDiffZ (l : List (Option ℤ)) (i : ℕ) : Option ℤ :=
  match i with
  | 0 => none
  | j + 1 => osub (l.getD (j + 1) none) (l.getD j none)

/-- Percentage change with lag `k` at position `i`:
`l[i] / l[i-k] - 1`, `none` while fewer than `k` prior observations
exist or an operand is missing (pandas `pct_change(periods=k)`). -/
def pctChangeAt (l : List (Option ℚ)) (k : ℕ) (i : ℕ) : Option ℚ :=
  if k ≤ i then do pure ((← l.getD i none) / (← l.getD (i - k) none) - 1)
  else none

/-- Mean of a list of rationals (junk value `0` on the empty list; the
embedding only uses it on nonempty windows). -/
def listMean (l : List ℚ) : ℚ := l.sum / l.length

/-- Sample variance with `ddof = 1`, the pandas default for
`rolling(...).std()` (junk value `0` for lists of length `≤ 1`; the
rolling helpers below return `none` in that situation instead). -/
def sampleVar (l : List ℚ) : ℚ :=
  (l.map (fun x => (x - listMean l) ^ 2)).sum / (l.length - 1 : ℕ)

/-- The window `l[i-w+1 … i]` of length `w` ending at position `i`,
provided all entries exist; `none` otherwise (pandas rolling windows
with the default `min_periods = window`). -/
def rollingWindow (w : ℕ) (l : List (Option ℚ)) (i : ℕ) : Option (List ℚ) :=
  if 1 ≤ w ∧ w ≤ i + 1 then
    ((List.range w).map (fun j => l.getD (i + 1 + j - w) none)).mapM id
  else none

/-- Rolling mean over window `w` (pandas `rolling(window=w).mean()`). -/
def rollingMean (w : ℕ) (l : List (Option ℚ)) (i : ℕ) : Option ℚ :=
  (rollingWindow w l i).map listMean

/-- Rolling sample standard deviation over window `w`
(pandas `rolling(window=w).std()`, `ddof = 1`, hence `none` when
`w ≤ 1`). The value is real because of the square root. -/
noncomputable def rollingStd (w : ℕ) (l : List (Option ℚ)) (i : ℕ) : Option ℝ :=
  if 2 ≤ w then (rollingWindow w l i).map (fun win => Real.sqrt (sampleVar win))
  else none

/-- Cumulative product of `1 + r` with missing values contributing a
factor of `1` — the embedding of
`(1 + series.fillna(0)).cumprod()` — starting from accumulator `acc`. -/
def cumProd1Aux {α : Type} [Field α] (acc : α) : List (Option α) → List α
  | [] => []
  | r :: rest =>
      let acc' := acc * (1 + r.getD 0)
      acc' :: cumProd1Aux acc' rest

/-- Cumulative product of `1 + fillna(r)`. -/
def cumProd1 {α : Type} [Field α] (rs : List (Option α)) : List α :=
  cumProd1Aux 1 rs

/-- Running maximum of a list (pandas `cummax()` on a series without
missing values), starting from a given current maximum. -/
def cumMaxAux {α : Type} [LinearOrder α] (m : α) : List α → List α
  | [] => []
  | x :: rest =>
      let m' := max m x
      m' :: cumMaxAux m' rest

/-- Running maximum: position `i` holds `max l[0…i]`. -/
def cumMax {α : Type} [LinearOrder α] : List α → List α
  | [] => []
  | x :: rest => x :: cumMaxAux x rest

/-- Drawdown series `(cum - peak) / peak` of a cumulative-value series,
where `peak` is the running maximum (the common shape of
`momentum_strategy.py` lines 211-212 and `rsi_mean_reversion.py`
lines 267-268). -/
def drawdownOf {α : Type} [LinearOrderedField α] (cum : List α) : List α :=
  List.zipWith (fun c p => (c - p) / p) cum (cumMax cum)

/-- Running maximum of an option-valued list, skipping missing entries
(pandas `cummax()` with its default `skipna=True`): a position is `none`
until the first present value. -/
def cumMaxOptAux {α : Type} [LinearOrder α] (m : Option α) :
    List (Option α) → List (Option α)
  | [] => []
  | x :: rest =>
      let m' := match m, x with
        | some a, some b => some (max a b)
        | some a, none => some a
        | none, b => b
      m' :: cumMaxOptAux m' rest

/-- Running maximum of an option-valued list. -/
def cumMaxOpt {α : Type} [LinearOrder α] (l : List (Option α)) : List (Option α) :=
  cumMaxOptAux none l

/-- Cumulative product of `1 + r` on an option-valued list without
`fillna`: missing returns yield a missing cumulative value but do not
contribute to later products (pandas `cumprod()` with `skipna=True`).
Used by the SMA/LETF backtest, which does not `fillna` its returns. -/
def cumProd1SkipAux {α : Type} [Field α] (acc : α) : List (Option α) → List (Option α)
  | [] => []
  | r :: rest =>
      match r with
      | some x =>
          let acc' := acc * (1 + x)
          some acc' :: cumProd1SkipAux acc' rest
      | none => none :: cumProd1SkipAux acc rest

/-- Cumulative product of `1 + r`, skipping missing values. -/
def cumProd1Skip {α : Type} [Field α] (rs : List (Option α)) : List (Option α) :=
  cumProd1SkipAux 1 rs

/-! ## Time-series momentum (`calculations/momentum_strategy.py`) -/

/-- Position-type enumeration of `TSMParameters.position_type`. -/
inductive TSMPositionKind where
  | long_short
  | long_cash
deriving DecidableEq, Repr

/-- `TSMParameters` (momentum_strategy.py lines 15-24). The volatility
target and risk-free rate are kept rational; real-valued derived
quantities are produced where the source applies `sqrt`. -/
structure TSMParameters where
  lookbackMonths : ℕ := 12
  holdingPeriodDays : ℕ := 21
  volatilityWindow : ℕ := 21
  volatilityTarget : ℚ := 1 / 10
  enableVolatilityScaling : Bool := true
  positionKind : TSMPositionKind := .long_cash
  riskFreeRate : ℚ := 1 / 50
deriving Repr

/-- `np.sign` on a rational. -/
def ratSign (q : ℚ) : ℤ :=
  if 0 < q then 1 else if q < 0 then -1 else 0

/-- State of the holding-period walk of
`TimeSeriesMomentum._apply_holding_period` (lines 142-165):
`last_change_idx`, `last_signal`, plus a count of accepted signal
changes (the state updates of line 159-161). -/
structure HPState where
  lastChangeIdx : ℕ
  lastSignal : ℤ
  count : ℕ
deriving DecidableEq, Repr

/-- One step of the holding-period walk at enumeration position `i`:
a missing signal is skipped (`continue`, the output keeps its `NaN`),
otherwise a new signal value is accepted when the position is `0` or at
least `H` bars have passed since the last accepted change, and the output
row is the last accepted signal. -/
def hpStep (H : ℕ) (i : ℕ) (st : HPState) (sig : Option ℤ) :
    HPState × Option ℤ :=
  match sig with
  | none => (st, none)
  | some s =>
      if (i = 0 ∨ H ≤ i - st.lastChangeIdx) ∧ s ≠ st.lastSignal then
        (⟨i, s, st.count + 1⟩, some s)
      else
        (st, some st.lastSignal)

/-- The holding-period walk over a signal list, from position `i` in
state `st`, returning the filtered outputs and the final state. -/
def hpWalk (H : ℕ) (i : ℕ) (st : HPState) :
    List (Option ℤ) → List (Option ℤ) × HPState
  | [] => ([], st)
  | sig :: rest =>
      let (st', out) := hpStep H i st sig
      let (outs, stFin) := hpWalk H (i + 1) st' rest
      (out :: outs, stFin)

/-- Initial state of the walk: `last_change_idx = 0`, `last_signal = 0`. -/
def hpInit : HPState := ⟨0, 0, 0⟩

/-- `TimeSeriesMomentum._apply_holding_period`: the identity for
`holding_period_days ≤ 1`, otherwise the walk output. -/
def applyHoldingPeriod (H : ℕ) (signals : List (Option ℤ)) : List (Option ℤ) :=
  if H ≤ 1 then signals else (hpWalk H 0 hpInit signals).1

/-- Number of accepted signal changes of the holding-period walk.
(For `H ≤ 1` the source skips the walk and returns the raw signals;
`hpWalk_le_one_eq` below shows the walk output coincides with the raw
signals in that case, so the walk count is the canonical reading of
"accepted changes" for every `H`.) -/
def hpChangeCount (H : ℕ) (signals : List (Option ℤ)) : ℕ :=
  ((hpWalk H 0 hpInit signals).2).count

/-- Discrepancy credit between the states of two holding-period walks
run in lockstep: `1` when their last accepted signals differ. -/
def hpD (st st' : HPState) : ℕ :=
  if st.lastSignal = st'.lastSignal then 0 else 1

/-- Window credit between the states of two lockstep walks with window
`H` on the first: `1` when the signals agree, the second walk changed
longer ago, and position `i` is still inside the first walk's window. -/
def hpW (H : ℕ) (i : ℕ) (st st' : HPState) : ℕ :=
  if st.lastSignal = st'.lastSignal ∧ st'.lastChangeIdx < st.lastChangeIdx ∧
      i < st.lastChangeIdx + H then 1 else 0

/-- Invariant coupling a window-`H` walk state `st` and a window-`Hp`
walk state `st'` over the same binary signal stream at position `i`:
both last signals are binary, both last-change indices are in the past,
and the second walk's count plus the credits is bounded by the first
walk's count. -/
def HPInv (H Hp i : ℕ) (st st' : HPState) : Prop :=
  (st.lastSignal = 0 ∨ st.lastSignal = 1) ∧
  (st'.lastSignal = 0 ∨ st'.lastSignal = 1) ∧
  st.lastChangeIdx < max i 1 ∧
  st'.lastChangeIdx < max i 1 ∧
  st'.count + hpD st st' + 2 * hpW H i st st' ≤ st.count

/-- Momentum lookback in trading days: `lookback_months * 21`
(line 104). -/
def tsmLookbackDays (p : TSMParameters) : ℕ := p.lookbackMonths * 21

/-- Daily returns column: `df['close'].pct_change()` (line 101). -/
def tsmReturnsAt (prices : List (Option ℚ)) (i : ℕ) : Option ℚ :=
  pctChangeAt prices 1 i

/-- Momentum column: `df['close'].pct_change(periods=lookback_days)`
(line 105). -/
def tsmMomentumAt (p : TSMParameters) (prices : List (Option ℚ)) (i : ℕ) : Option ℚ :=
  pctChangeAt prices (tsmLookbackDays p) i

/-- Volatility column: rolling std of returns times `sqrt 252`, floored
at `0.05` (lines 108-113; the `clip(lower=0.05)` maps over the present
values, `NaN` stays `NaN`). -/
noncomputable def tsmVolatilityAt (p : TSMParameters) (prices : List (Option ℚ))
    (i : ℕ) : Option ℝ :=
  (rollingStd p.volatilityWindow ((List.range prices.length).map (tsmReturnsAt prices)) i).map
    (fun s => max (s * Real.sqrt 252) (5 / 100))

/-- Raw (pre-filter, pre-shift) signal column (lines 116-121):
`np.where(momentum > 0, 1, 0)` in long/cash mode — never missing, since
`NaN > 0` is false — and `np.sign(momentum)` in long/short mode, missing
while the momentum is. -/
def tsmRawSignalAt (p : TSMParameters) (prices : List (Option ℚ)) (i : ℕ) : Option ℤ :=
  match p.positionKind with
  | .long_cash => some (if olt (some 0) (tsmMomentumAt p prices i) then 1 else 0)
  | .long_short => (tsmMomentumAt p prices i).map ratSign

/-- The raw signal column as a list. -/
def tsmRawSignals (p : TSMParameters) (prices : List (Option ℚ)) : List (Option ℤ) :=
  (List.range prices.length).map (tsmRawSignalAt p prices)

/-- The same parameters with only `holding_period_days` replaced. -/
def tsmWithHolding (p : TSMParameters) (H : ℕ) : TSMParameters :=
  ⟨p.lookbackMonths, H, p.volatilityWindow, p.volatilityTarget,
    p.enableVolatilityScaling, p.positionKind, p.riskFreeRate⟩

/-- The number of signal changes accepted by the holding-period filter
on the raw signal column. -/
def tsmSignalChangeCount (p : TSMParameters) (prices : List (Option ℚ)) : ℕ :=
  hpChangeCount p.holdingPeriodDays (tsmRawSignals p prices)

/-- The filtered (pre-shift) signal column: line 124. -/
def tsmFilteredSignals (p : TSMParameters) (prices : List (Option ℚ)) : List (Option ℤ) :=
  applyHoldingPeriod p.holdingPeriodDays (tsmRawSignals p prices)

/-- Filtered signal at a position (missing beyond the series). -/
def tsmFilteredSignalAt (p : TSMParameters) (prices : List (Option ℚ)) (i : ℕ) : Option ℤ :=
  (tsmFilteredSignals p prices).getD i none

/-- Pre-shift position size (lines 127-132): with volatility scaling,
`min(volatility_target / volatility, 2) * |signal|`; otherwise
`|signal|` as a float. Missing whenever an ingredient is. -/
noncomputable def tsmPositionSizeRawAt (p : TSMParameters) (prices : List (Option ℚ))
    (i : ℕ) : Option ℝ :=
  if p.enableVolatilityScaling then
    match tsmVolatilityAt p prices i, tsmFilteredSignalAt p prices i with
    | some v, some s => some (min ((p.volatilityTarget : ℝ) / v) 2 * |(s : ℝ)|)
    | _, _ => none
  else
    (tsmFilteredSignalAt p prices i).map (fun s => |(s : ℝ)|)

/-- Post-shift signal column (line 136): `df['signal'].shift(1)`. -/
def tsmSignalAt (p : TSMParameters) (prices : List (Option ℚ)) (i : ℕ) : Option ℤ :=
  match i with
  | 0 => none
  | j + 1 => tsmFilteredSignalAt p prices j

/-- Post-shift position-size column (line 137):
`df['position_size'].shift(1)`. -/
noncomputable def tsmPositionSizeAt (p : TSMParameters) (prices : List (Option ℚ))
    (i : ℕ) : Option ℝ :=
  match i with
  | 0 => none
  | j + 1 => tsmPositionSizeRawAt p prices j

/-- The Signal Frame returned by `TimeSeriesMomentum.calculate_signals`:
one list per column, all of the length of the price series. -/
structure TSMFrame where
  close : List (Option ℚ)
  returns : List (Option ℚ)
  momentum : List (Option ℚ)
  volatility : List (Option ℝ)
  signal : List (Option ℤ)
  positionSize : List (Option ℝ)

/-- Construction of the TSM Signal Frame (body of `calculate_signals`,
lines 97-139). -/
noncomputable def tsmSignalsFrame (p : TSMParameters) (prices : List (Option ℚ)) :
    TSMFrame where
  close := prices
  returns := (List.range prices.length).map (tsmReturnsAt prices)
  momentum := (List.range prices.length).map (tsmMomentumAt p prices)
  volatility := (List.range prices.length).map (tsmVolatilityAt p prices)
  signal := (List.range prices.length).map (tsmSignalAt p prices)
  positionSize := (List.range prices.length).map (tsmPositionSizeAt p prices)

/-- `TimeSeriesMomentum.calculate_signals` (lines 65-140) with the
optional date-range arguments at their `None` defaults (no claim
involves the date filter): an empty price series raises `ValueError`,
otherwise the Signal Frame is built and returned. -/
noncomputable def tsmCalculateSignals (p : TSMParameters) (prices : List (Option ℚ)) :
    Except String TSMFrame :=
  if prices.isEmpty then .error "Price series cannot be empty"
  else .ok (tsmSignalsFrame p prices)

/-- The Returns Frame of `TimeSeriesMomentum.calculate_strategy_returns`.
The benchmark path is fully rational; the strategy path inherits the
real-valued position sizes. -/
structure TSMRetFrame where
  benchmarkReturn : List (Option ℚ)
  strategyReturn : List (Option ℝ)
  cumulativeStrategy : List ℝ
  cumulativeBenchmark : List ℚ
  peak : List ℝ
  drawdown : List ℝ

/-- Body of `calculate_strategy_returns` (lines 191-215):
`strategy_return = signal * position_size * returns` under volatility
scaling (else `signal * returns`), cumulative curves
`(1 + r.fillna(0)).cumprod() * 100`, peak and drawdown. -/
noncomputable def tsmStrategyReturnsFrame (p : TSMParameters) (f : TSMFrame) :
    TSMRetFrame :=
  let n := f.close.length
  let strat : List (Option ℝ) :=
    (List.range n).map (fun i =>
      if p.enableVolatilityScaling then
        omul (omul ((f.signal.getD i none).map (fun z => (z : ℝ)))
          (f.positionSize.getD i none))
          ((f.returns.getD i none).map (fun q => (q : ℝ)))
      else
        omul ((f.signal.getD i none).map (fun z => (z : ℝ)))
          ((f.returns.getD i none).map (fun q => (q : ℝ))))
  let cumS : List ℝ := (cumProd1 strat).map (· * 100)
  { benchmarkReturn := f.returns
    strategyReturn := strat
    cumulativeStrategy := cumS
    cumulativeBenchmark := (cumProd1 f.returns).map (· * 100)
    peak := cumMax cumS
    drawdown := drawdownOf cumS }

/-- `TimeSeriesMomentum.calculate_strategy_returns` (lines 167-215) as a
method on the object state: `signals_df` argument, falling back to the
cached `self._signals`, and a `ValueError` when neither exists. -/
noncomputable def tsmCalculateStrategyReturns (p : TSMParameters)
    (cachedSignals : Option TSMFrame) (arg : Option TSMFrame) :
    Except String TSMRetFrame :=
  match arg.orElse (fun _ => cachedSignals) with
  | none => .error "No signals available. Call calculate_signals() first."
  | some f => .ok (tsmStrategyReturnsFrame p f)

/-- One row of the trade log of `generate_trade_log`. Dates are list
positions; `holdingDays` is the position difference (the source's
calendar-day difference is order-isomorphic to it under the strictly
increasing date index). -/
structure TSMTrade where
  entryIdx : ℕ
  exitIdx : ℕ
  entryPrice : Option ℚ
  exitPrice : Option ℚ
  direction : String
  tradeReturn : Option ℚ
  holdingDays : ℕ
deriving DecidableEq, Repr

/-- The position-closing step of `generate_trade_log` (lines 359-368):
one closed trade when a position is open and an entry is recorded,
nothing otherwise. -/
def tsmClosedTrades (close : Option ℚ) (i : ℕ) (pos : ℤ) (entryIdx : Option ℕ)
    (entryPrice : Option ℚ) : List TSMTrade :=
  match entryIdx with
  | some e =>
      if pos ≠ 0 then
        [{ entryIdx := e
           exitIdx := i
           entryPrice := entryPrice
           exitPrice := close
           direction := if 0 < pos then "Long" else "Short"
           tradeReturn := do pure (((← close) / (← entryPrice) - 1) * pos)
           holdingDays := i - e }]
      else []
  | none => []

/-- The loop of `generate_trade_log` (lines 345-377): a missing signal
is skipped; a signal different from the current position closes any open
position at the current row's close and, if the new signal is nonzero,
opens a new position at the same row. -/
def tsmTradeLogAux :
    List (Option ℚ × Option ℤ) → ℕ → ℤ → Option ℕ → Option ℚ → List TSMTrade
  | [], _, _, _, _ => []
  | (close, sig) :: rest, i, pos, entryIdx, entryPrice =>
      match sig with
      | none => tsmTradeLogAux rest (i + 1) pos entryIdx entryPrice
      | some s =>
          if s ≠ pos then
            if s ≠ 0 then
              tsmClosedTrades close i pos entryIdx entryPrice ++
                tsmTradeLogAux rest (i + 1) s (some i) close
            else
              tsmClosedTrades close i pos entryIdx entryPrice ++
                tsmTradeLogAux rest (i + 1) s entryIdx entryPrice
          else
            tsmTradeLogAux rest (i + 1) pos entryIdx entryPrice

/-- `TimeSeriesMomentum.generate_trade_log` (lines 329-377): argument or
cached signals; an absent Signal Frame yields an empty table (not an
error), otherwise the loop above over the `(close, signal)` rows. -/
def tsmGenerateTradeLog (cachedSignals : Option TSMFrame) (arg : Option TSMFrame) :
    List TSMTrade :=
  match arg.orElse (fun _ => cachedSignals) with
  | none => []
  | some f => tsmTradeLogAux (f.close.zip f.signal) 0 0 none none

/-- Trade statistics of `_calculate_trade_stats` (lines 303-327):
`(win_rate, num_trades, avg_holding)`. A signal change is a row whose
`diff` is present and nonzero (`diff().fillna(0) != 0`); a "position
day" is a row whose signal is not the value `0` — pandas counts `NaN`
rows here, since `NaN != 0` is `True`. -/
def tsmTradeStats (sf : Option TSMFrame) : ℚ × ℕ × ℚ :=
  match sf with
  | none => (0, 0, 0)
  | some f =>
      let n := f.close.length
      let numTrades : ℕ :=
        ((List.range n).filter (fun i =>
          match seriesDiffZ f.signal i with
          | some d => d ≠ 0
          | none => false)).length
      if numTrades = 0 then (0, 0, 0)
      else
        let winningDays : ℕ :=
          ((List.range n).filter (fun i =>
            olt (some 0) (omul (f.returns.getD i none)
              ((f.signal.getD i none).map (fun z => (z : ℚ)))))).length
        let totalPositionDays : ℕ :=
          ((List.range n).filter (fun i =>
            f.signal.getD i none ≠ some 0)).length
        let winRate : ℚ :=
          if 0 < totalPositionDays then (winningDays : ℚ) / totalPositionDays else 0
        let avgHolding : ℚ :=
          if 0 < numTrades then (totalPositionDays : ℚ) / numTrades else 0
        (winRate, numTrades, avgHolding)

/-- `TSMPerformanceMetrics` (lines 27-43); float fields are real. -/
structure TSMPerformanceMetrics where
  totalReturn : ℝ
  annualizedReturn : ℝ
  annualizedVolatility : ℝ
  sharpeRatio : ℝ
  maxDrawdown : ℝ
  maxDrawdownDurationDays : ℕ
  winRate : ℚ
  numTrades : ℕ
  avgHoldingPeriod : ℚ
  calmarRatio : ℝ
  sortinoRatio : ℝ
  benchmarkTotalReturn : ℝ
  benchmarkSharpeRatio : ℝ
  excessReturn : ℝ

/-- Mean of a list of reals (junk value `0` on the empty list). -/
noncomputable def listMeanR (l : List ℝ) : ℝ := l.sum / l.length

/-- Sample standard deviation (`ddof = 1`) of a list of reals. For lists
of length `≤ 1` pandas yields `NaN`; the embedding yields the junk value
`0` (division by zero), which no claim depends on. -/
noncomputable def sampleStdR (l : List ℝ) : ℝ :=
  Real.sqrt ((l.map (fun x => (x - listMeanR l) ^ 2)).sum / (l.length - 1 : ℕ))

/-- Longest run of `True` in a boolean list — the value computed by
`_calculate_max_dd_duration` (lines 290-301) via the pandas
`groupby`/`cumsum` idiom, which sums each maximal run of in-drawdown
rows and takes the maximum (0 when never in drawdown). -/
def longestRunAux : List Bool → ℕ → ℕ → ℕ
  | [], _, best => best
  | b :: rest, cur, best =>
      if b then longestRunAux rest (cur + 1) (max best (cur + 1))
      else longestRunAux rest 0 best

/-- Longest run of `True`. -/
def longestRun (l : List Bool) : ℕ := longestRunAux l 0 0

/-- Body of `calculate_performance_metrics` (lines 236-288) given the
last cumulative values (the `iloc[-1]` accesses). -/
noncomputable def tsmMetricsOf (p : TSMParameters) (cachedSignals : Option TSMFrame)
    (r : TSMRetFrame) (lastCumS : ℝ) (lastCumB : ℚ) : TSMPerformanceMetrics :=
  let strategyReturns : List ℝ := r.strategyReturn.filterMap id
  let benchmarkReturns : List ℚ := r.benchmarkReturn.filterMap id
  let totalReturn : ℝ := lastCumS / 100 - 1
  let numYears : ℝ := (strategyReturns.length : ℝ) / 252
  let annualizedReturn : ℝ :=
    if 0 < numYears then (1 + totalReturn) ^ (1 / numYears) - 1 else 0
  let benchmarkTotal : ℝ := (lastCumB : ℝ) / 100 - 1
  let annualizedVol : ℝ := sampleStdR strategyReturns * Real.sqrt 252
  let benchmarkVol : ℝ :=
    sampleStdR (benchmarkReturns.map (fun q => (q : ℝ))) * Real.sqrt 252
  let sharpe : ℝ :=
    if 0 < annualizedVol then (annualizedReturn - p.riskFreeRate) / annualizedVol else 0
  let benchmarkAnnReturn : ℝ :=
    if 0 < numYears then (1 + benchmarkTotal) ^ (1 / numYears) - 1 else 0
  let benchmarkSharpe : ℝ :=
    if 0 < benchmarkVol then (benchmarkAnnReturn - p.riskFreeRate) / benchmarkVol else 0
  let maxDd : ℝ := (r.drawdown.min?).getD 0
  let ddDuration : ℕ := longestRun (r.drawdown.map (fun d => decide (d < 0)))
  let downsideReturns : List ℝ := strategyReturns.filter (fun x => x < 0)
  let downsideVol : ℝ :=
    if 0 < downsideReturns.length then sampleStdR downsideReturns * Real.sqrt 252
    else 1 / 10000
  let sortino : ℝ := (annualizedReturn - p.riskFreeRate) / downsideVol
  let calmar : ℝ := if maxDd ≠ 0 then annualizedReturn / |maxDd| else 0
  let trades := tsmTradeStats cachedSignals
  { totalReturn := totalReturn
    annualizedReturn := annualizedReturn
    annualizedVolatility := annualizedVol
    sharpeRatio := sharpe
    maxDrawdown := maxDd
    maxDrawdownDurationDays := ddDuration
    winRate := trades.1
    numTrades := trades.2.1
    avgHoldingPeriod := trades.2.2
    calmarRatio := calmar
    sortinoRatio := sortino
    benchmarkTotalReturn := benchmarkTotal
    benchmarkSharpeRatio := benchmarkSharpe
    excessReturn := totalReturn - benchmarkTotal }

/-- `TimeSeriesMomentum.calculate_performance_metrics` (lines 217-288):
argument or cached Returns Frame, raising `ValueError` when neither
exists; on an empty frame the `iloc[-1]` accesses raise `IndexError`.
The trade statistics read the cached `self._signals`. -/
noncomputable def tsmCalculatePerformanceMetrics (p : TSMParameters)
    (cachedSignals : Option TSMFrame) (cachedReturns : Option TSMRetFrame)
    (arg : Option TSMRetFrame) : Except String TSMPerformanceMetrics :=
  match arg.orElse (fun _ => cachedReturns) with
  | none => .error "No returns available. Call calculate_strategy_returns() first."
  | some r =>
      match r.cumulativeStrategy.getLast?, r.cumulativeBenchmark.getLast? with
      | some cs, some cb => .ok (tsmMetricsOf p cachedSignals r cs cb)
      | _, _ => .error "IndexError: single positional indexer is out-of-bounds"

/-! ## RSI mean-reversion (`calculations/rsi_mean_reversion.py`) -/

/-- `position_type` of the RSI strategy. -/
inductive RSIPositionKind where
  | long_only
  | short_only
  | long_short
deriving DecidableEq, Repr

/-- `RSIMeanReversionParameters` (rsi_mean_reversion.py lines 26-46). -/
structure RSIMeanReversionParameters where
  rsiPeriod : ℕ := 14
  rsiOversold : ℚ := 30
  rsiOverbought : ℚ := 70
  maPeriod : ℕ := 20
  stdDevMultiplier : ℚ := 1
  takeProfitPct : ℚ := 5
  stopLossPct : ℚ := 2
  positionKind : RSIPositionKind := .long_short
  riskFreeRate : ℚ := 1 / 50
deriving DecidableEq, Repr

/-- Gain series of `_calculate_rsi` (line 85):
`delta.where(delta > 0, 0.0)` — `0` where the delta is missing, since a
comparison with `NaN` is false. -/
def rsiGainAt (prices : List (Option ℚ)) (i : ℕ) : ℚ :=
  match seriesDiff prices i with
  | some d => if 0 < d then d else 0
  | none => 0

/-- Loss series of `_calculate_rsi` (line 86):
`(-delta).where(delta < 0, 0.0)`. -/
def rsiLossAt (prices : List (Option ℚ)) (i : ℕ) : ℚ :=
  match seriesDiff prices i with
  | some d => if d < 0 then -d else 0
  | none => 0

/-- Wilder smoothing of `_calculate_rsi` (lines 88-94): position
`period - 1` holds the simple rolling mean; later positions follow
`avg[i] = (avg[i-1] * (period-1) + g[i]) / period`; earlier positions
are missing (as is everything when `period = 0`, where pandas raises). -/
def wilderAvg (period : ℕ) (g : ℕ → ℚ) : ℕ → Option ℚ
  | 0 => if period = 1 then some (listMean ((List.range 1).map g)) else none
  | j + 1 =>
      if j + 2 < period then none
      else if j + 2 = period then some (listMean ((List.range period).map g))
      else (wilderAvg period g j).map
        (fun a => (a * ((period : ℚ) - 1) + g (j + 1)) / period)

/-- The RSI column (lines 96-98): `rs = avg_gain / avg_loss.replace(0, nan)`
(so a zero average loss yields a missing RSI) and
`rsi = 100 - 100 / (1 + rs)`. -/
def rsiAt (p : RSIMeanReversionParameters) (prices : List (Option ℚ)) (i : ℕ) :
    Option ℚ :=
  match wilderAvg p.rsiPeriod (rsiGainAt prices) i,
        wilderAvg p.rsiPeriod (rsiLossAt prices) i with
  | some ag, some al =>
      if al = 0 then none else some (100 - 100 / (1 + ag / al))
  | _, _ => none

/-- Rolling moving average of the close (line 122). -/
def rsiMaAt (p : RSIMeanReversionParameters) (prices : List (Option ℚ)) (i : ℕ) :
    Option ℚ :=
  rollingMean p.maPeriod prices i

/-- Rolling standard deviation of the close (line 123). -/
noncomputable def rsiStdAt (p : RSIMeanReversionParameters)
    (prices : List (Option ℚ)) (i : ℕ) : Option ℝ :=
  rollingStd p.maPeriod prices i

/-- Upper Bollinger band `ma + multiplier * std` (line 126). -/
noncomputable def rsiUpperBandAt (p : RSIMeanReversionParameters)
    (prices : List (Option ℚ)) (i : ℕ) : Option ℝ := do
  pure ((((← rsiMaAt p prices i) : ℚ) : ℝ) +
    (p.stdDevMultiplier : ℝ) * (← rsiStdAt p prices i))

/-- Lower Bollinger band `ma - multiplier * std` (line 127). -/
noncomputable def rsiLowerBandAt (p : RSIMeanReversionParameters)
    (prices : List (Option ℚ)) (i : ℕ) : Option ℝ := do
  pure ((((← rsiMaAt p prices i) : ℚ) : ℝ) -
    (p.stdDevMultiplier : ℝ) * (← rsiStdAt p prices i))

/-- Price deviation `(close - ma) / std` (line 130). -/
noncomputable def rsiPriceDeviationAt (p : RSIMeanReversionParameters)
    (prices : List (Option ℚ)) (i : ℕ) : Option ℝ := do
  pure (((((← prices.getD i none) - (← rsiMaAt p prices i) : ℚ)) : ℝ) /
    (← rsiStdAt p prices i))

/-- Long entry condition (lines 133-136):
`rsi < oversold ∧ close < lower_band` (false on missing values). -/
def rsiLongCondAt (p : RSIMeanReversionParameters) (prices : List (Option ℚ))
    (i : ℕ) : Prop :=
  olt (rsiAt p prices i) (some p.rsiOversold) = true ∧
    oltR ((prices.getD i none).map (fun q => (q : ℝ))) (rsiLowerBandAt p prices i)

/-- Short entry condition (lines 137-140):
`rsi > overbought ∧ close > upper_band`. -/
def rsiShortCondAt (p : RSIMeanReversionParameters) (prices : List (Option ℚ))
    (i : ℕ) : Prop :=
  olt (some p.rsiOverbought) (rsiAt p prices i) = true ∧
    oltR (rsiUpperBandAt p prices i) ((prices.getD i none).map (fun q => (q : ℝ)))

/-- Raw signal column (lines 142-147): starts at `0`; the long mask sets
`1` when the position type admits longs; the short mask is applied
afterwards and overwrites with `-1` where it fires. The column is an
integer column, hence never `NaN`. -/
noncomputable def rsiRawSignalAt (p : RSIMeanReversionParameters)
    (prices : List (Option ℚ)) (i : ℕ) : ℤ :=
  open Classical in
  if (p.positionKind = .short_only ∨ p.positionKind = .long_short) ∧
      rsiShortCondAt p prices i then -1
  else if (p.positionKind = .long_only ∨ p.positionKind = .long_short) ∧
      rsiLongCondAt p prices i then 1
  else 0

/-- The Signal Frame of `RSIMeanReversion.calculate_signals`. -/
structure RSIFrame where
  close : List (Option ℚ)
  returns : List (Option ℚ)
  rsi : List (Option ℚ)
  ma : List (Option ℚ)
  std : List (Option ℝ)
  upperBand : List (Option ℝ)
  lowerBand : List (Option ℝ)
  priceDeviation : List (Option ℝ)
  rawSignal : List ℤ

/-- Construction of the RSI Signal Frame (lines 114-149). -/
noncomputable def rsiSignalsFrame (p : RSIMeanReversionParameters)
    (prices : List (Option ℚ)) : RSIFrame where
  close := prices
  returns := (List.range prices.length).map (pctChangeAt prices 1)
  rsi := (List.range prices.length).map (rsiAt p prices)
  ma := (List.range prices.length).map (rsiMaAt p prices)
  std := (List.range prices.length).map (rsiStdAt p prices)
  upperBand := (List.range prices.length).map (rsiUpperBandAt p prices)
  lowerBand := (List.range prices.length).map (rsiLowerBandAt p prices)
  priceDeviation := (List.range prices.length).map (rsiPriceDeviationAt p prices)
  rawSignal := (List.range prices.length).map (rsiRawSignalAt p prices)

/-- `RSIMeanReversion.calculate_signals` (lines 101-150): `ValueError`
on an empty price series, otherwise the Signal Frame. -/
noncomputable def rsiCalculateSignals (p : RSIMeanReversionParameters)
    (prices : List (Option ℚ)) : Except String RSIFrame :=
  if prices.isEmpty then .error "Price series cannot be empty"
  else .ok (rsiSignalsFrame p prices)

/-- One trade of `simulate_trades`. The entry index mirrors the
`entry_date` state variable (a date or `None`); prices are rational and
`exitPrice`/`returnPct` may be missing when the final row's close is. -/
structure RSITrade where
  entryIdx : Option ℕ
  exitIdx : ℕ
  entryPrice : ℚ
  exitPrice : Option ℚ
  direction : String
  returnPct : Option ℚ
  exitReason : String
  holdingDays : Option ℕ
deriving DecidableEq, Repr

/-- The day loop of `simulate_trades` (lines 170-233) plus the final
end-of-period close. A row with a missing close is skipped (the
`raw_signal` operand of the `isna` guard is an integer column and never
missing). While a position is open, take profit is checked first, then
stop loss; with neither hit the entry check is unreachable because the
position is nonzero, so the state simply carries over. While flat, a
nonzero raw signal opens a position at the current close. The base case
is lines 221-233: an open position is closed at the final row. -/
def rsiSimAux (p : RSIMeanReversionParameters) (lastIdx : ℕ) (lastClose : Option ℚ) :
    List (Option ℚ × ℤ) → ℕ → ℤ → ℚ → Option ℕ → List RSITrade
  | [], _, pos, entryPrice, entryIdx =>
      if pos ≠ 0 then
        match entryIdx with
        | some e =>
            [{ entryIdx := some e
               exitIdx := lastIdx
               entryPrice := entryPrice
               exitPrice := lastClose
               direction := if 0 < pos then "Long" else "Short"
               returnPct := lastClose.map (fun c => ((c / entryPrice) - 1) * pos * 100)
               exitReason := "End of Period"
               holdingDays := some (lastIdx - e) }]
        | none => []
      else []
  | (close, raw) :: rest, i, pos, entryPrice, entryIdx =>
      match close with
      | none => rsiSimAux p lastIdx lastClose rest (i + 1) pos entryPrice entryIdx
      | some c =>
          if pos ≠ 0 then
            let pnlPct : ℚ := ((c / entryPrice) - 1) * pos * 100
            if p.takeProfitPct ≤ pnlPct then
              { entryIdx := entryIdx
                exitIdx := i
                entryPrice := entryPrice
                exitPrice := some c
                direction := if 0 < pos then "Long" else "Short"
                returnPct := some pnlPct
                exitReason := "Take Profit"
                holdingDays := entryIdx.map (fun e => i - e) }
                :: rsiSimAux p lastIdx lastClose rest (i + 1) 0 0 none
            else if pnlPct ≤ -p.stopLossPct then
              { entryIdx := entryIdx
                exitIdx := i
                entryPrice := entryPrice
                exitPrice := some c
                direction := if 0 < pos then "Long" else "Short"
                returnPct := some pnlPct
                exitReason := "Stop Loss"
                holdingDays := entryIdx.map (fun e => i - e) }
                :: rsiSimAux p lastIdx lastClose rest (i + 1) 0 0 none
            else
              rsiSimAux p lastIdx lastClose rest (i + 1) pos entryPrice entryIdx
          else
            if raw ≠ 0 then
              rsiSimAux p lastIdx lastClose rest (i + 1) raw c (some i)
            else
              rsiSimAux p lastIdx lastClose rest (i + 1) pos entryPrice entryIdx

/-- `RSIMeanReversion.simulate_trades` on a Signal Frame: the loop over
the `(close, raw_signal)` rows, starting flat with `entry_price = 0.0`
and no entry date. `iloc[-1]` and `index[-1]` of the final close are
passed through for the end-of-period exit. -/
def rsiSimulateTrades (p : RSIMeanReversionParameters) (f : RSIFrame) :
    List RSITrade :=
  rsiSimAux p (f.close.length - 1) ((f.close.getLast?).getD none)
    (f.close.zip f.rawSignal) 0 0 0 none

/-- Whether a trade's window covers position `i`
(the mask `(index >= entry_date) & (index <= exit_date)` of line 255;
false when the trade has no entry date — unreachable for trades the
simulator actually produces). -/
def rsiTradeCovers (t : RSITrade) (i : ℕ) : Bool :=
  match t.entryIdx with
  | some e => decide (e ≤ i) && decide (i ≤ t.exitIdx)
  | none => false

/-- The Returns Frame of `RSIMeanReversion.calculate_returns`; all
columns are rational. -/
structure RSIRetFrame where
  close : List (Option ℚ)
  benchmarkReturn : List (Option ℚ)
  strategyReturn : List (Option ℚ)
  cumulativeStrategy : List ℚ
  cumulativeBenchmark : List ℚ
  peak : List ℚ
  drawdown : List ℚ

/-- Body of `calculate_returns` (lines 248-271): the strategy return
starts as `0.0` everywhere and each trade's loop iteration overwrites
the rows its window covers with `returns * direction` (the computed
`daily_return` local is unused in the source; a later trade would win on
an overlap, hence the last covering trade below). Cumulative curves,
peak and drawdown as in the TSM path. -/
def rsiReturnsFrame (f : RSIFrame) (trades : List RSITrade) : RSIRetFrame :=
  let n := f.close.length
  let strat : List (Option ℚ) :=
    (List.range n).map (fun i =>
      match (trades.filter (fun t => rsiTradeCovers t i)).getLast? with
      | some t =>
          (f.returns.getD i none).map
            (fun r => r * (if t.direction = "Long" then 1 else -1))
      | none => some 0)
  let cumS : List ℚ := (cumProd1 strat).map (· * 100)
  { close := f.close
    benchmarkReturn := f.returns
    strategyReturn := strat
    cumulativeStrategy := cumS
    cumulativeBenchmark := (cumProd1 f.returns).map (· * 100)
    peak := cumMax cumS
    drawdown := drawdownOf cumS }

/-- Object state of an `RSIMeanReversion` instance:
`self.params`, `self._signals`, `self._trades`, `self._returns`. -/
structure RSIState where
  params : RSIMeanReversionParameters
  signals : Option RSIFrame
  trades : Option (List RSITrade)
  returnsFrame : Option RSIRetFrame

/-- `simulate_trades` as a method (lines 152-163): argument or cached
signals, `ValueError` when neither exists. -/
def rsiSimulateTradesM (st : RSIState) (arg : Option RSIFrame) :
    Except String (List RSITrade) :=
  match arg.orElse (fun _ => st.signals) with
  | none => .error "No signals available. Call calculate_signals() first."
  | some f => .ok (rsiSimulateTrades st.params f)

/-- `calculate_returns` as a method (lines 238-271). The signal-frame
argument falls back to the cached `self._signals`; when `self._trades`
is absent or empty the method first runs `simulate_trades` (whose
`ValueError` propagates when no signals exist either); building the
frame from a `None` signal frame would then fail on
`signals_df.index` (`AttributeError`). Returns the frame and the
updated object state. -/
def rsiCalculateReturnsM (st : RSIState) (arg : Option RSIFrame) :
    Except String (RSIRetFrame × RSIState) := do
  let sdf := arg.orElse (fun _ => st.signals)
  let trades ←
    if st.trades = none ∨ st.trades = some [] then
      match sdf with
      | none =>
          .error "No signals available. Call calculate_signals() first."
      | some f => pure (rsiSimulateTrades st.params f)
    else
      pure (st.trades.getD [])
  match sdf with
  | none => .error "AttributeError: 'NoneType' object has no attribute 'index'"
  | some f =>
      let r := rsiReturnsFrame f trades
      pure (r, ⟨st.params, st.signals, some trades, some r⟩)

/-- `RSIMeanReversionMetrics` (lines 49-66); powers and square roots
live in the reals, the rest is rational. -/
structure RSIMeanReversionMetrics where
  totalReturn : ℚ
  annualizedReturn : ℝ
  annualizedVolatility : ℝ
  sharpeRatio : ℝ
  maxDrawdown : ℚ
  winRate : ℚ
  numTrades : ℕ
  avgTradeReturn : ℚ
  profitFactor : ℚ
  avgHoldingDays : ℚ
  benchmarkReturn : ℚ
  excessReturn : ℚ
  params : RSIMeanReversionParameters

/-- The all-zero metrics record returned when there are no trades
(lines 280-295). -/
def rsiZeroMetrics (p : RSIMeanReversionParameters) : RSIMeanReversionMetrics :=
  { totalReturn := 0, annualizedReturn := 0, annualizedVolatility := 0
    sharpeRatio := 0, maxDrawdown := 0, winRate := 0, numTrades := 0
    avgTradeReturn := 0, profitFactor := 0, avgHoldingDays := 0
    benchmarkReturn := 0, excessReturn := 0, params := p }

/-- Body of `calculate_metrics` (lines 297-342) for a nonempty trade
list, given the final cumulative values (`iloc[-1]`). Where pandas would
produce `NaN` (a standard deviation over at most one observation) the
embedding produces the junk value `0`; no claim depends on those
fields. -/
noncomputable def rsiMetricsOf (p : RSIMeanReversionParameters)
    (ts : List RSITrade) (r : RSIRetFrame) (lastCumS lastCumB : ℚ) :
    RSIMeanReversionMetrics :=
  let totalReturn : ℚ := lastCumS / 100 - 1
  let benchmarkReturn : ℚ := lastCumB / 100 - 1
  let numYears : ℝ := (r.close.length : ℝ) / 252
  let annualizedReturn : ℝ :=
    (1 + (totalReturn : ℝ)) ^ (1 / max numYears (1 / 100)) - 1
  let strategyReturns : List ℚ := r.strategyReturn.filterMap id
  let annualizedVol : ℝ :=
    if 0 < strategyReturns.length then
      Real.sqrt (sampleVar strategyReturns) * Real.sqrt 252
    else 1 / 10000
  let sharpe : ℝ :=
    if 0 < annualizedVol then (annualizedReturn - (p.riskFreeRate : ℝ)) / annualizedVol
    else 0
  let maxDd : ℚ := (r.drawdown.min?).getD 0
  let numTrades : ℕ := ts.length
  let winning : List RSITrade := ts.filter (fun t => olt (some 0) t.returnPct)
  let losing : List RSITrade := ts.filter (fun t => olt t.returnPct (some 0))
  let winRate : ℚ := if 0 < numTrades then (winning.length : ℚ) / numTrades else 0
  let avgTradeReturn : ℚ :=
    if 0 < numTrades then listMean (ts.filterMap (fun t => t.returnPct)) else 0
  let grossProfit : ℚ :=
    if 0 < winning.length then (winning.filterMap (fun t => t.returnPct)).sum else 0
  let grossLoss : ℚ :=
    if 0 < losing.length then |(losing.filterMap (fun t => t.returnPct)).sum|
    else 1 / 10000
  let profitFactor : ℚ := if 0 < grossLoss then grossProfit / grossLoss else grossProfit
  let avgHolding : ℚ :=
    if 0 < numTrades then
      listMean ((ts.filterMap (fun t => t.holdingDays)).map (fun h => (h : ℚ)))
    else 0
  { totalReturn := totalReturn
    annualizedReturn := annualizedReturn
    annualizedVolatility := annualizedVol
    sharpeRatio := sharpe
    maxDrawdown := maxDd
    winRate := winRate
    numTrades := numTrades
    avgTradeReturn := avgTradeReturn
    profitFactor := profitFactor
    avgHoldingDays := avgHolding
    benchmarkReturn := benchmarkReturn
    excessReturn := totalReturn - benchmarkReturn
    params := p }

/-- `calculate_metrics` (lines 273-342): when no Returns Frame is cached
the method first runs `calculate_returns()` (with no argument — its
errors propagate); an absent or empty trade list yields the all-zero
record; otherwise the metric formulas run on the cached frames
(`iloc[-1]` on an empty frame would raise `IndexError`). -/
noncomputable def rsiCalculateMetricsM (st : RSIState) :
    Except String RSIMeanReversionMetrics := do
  let st' ←
    match st.returnsFrame with
    | some _ => pure st
    | none => do
        let (_, st') ← rsiCalculateReturnsM st none
        pure st'
  match st'.trades with
  | none => pure (rsiZeroMetrics st'.params)
  | some ts =>
      match ts with
      | [] => pure (rsiZeroMetrics st'.params)
      | _ :: _ =>
          match st'.returnsFrame with
          | none => .error "AttributeError: 'NoneType' object is not subscriptable"
          | some r =>
              match r.cumulativeStrategy.getLast?, r.cumulativeBenchmark.getLast? with
              | some cs, some cb => pure (rsiMetricsOf st'.params ts r cs cb)
              | _, _ =>
                  .error "IndexError: single positional indexer is out-of-bounds"

/-! ### Parameter optimizer (`RSIParameterOptimizer`, lines 345-522) -/

/-- One row of the optimizer's results table (the dict of lines
440-457): flattened parameters plus metrics. -/
structure RSIResultRow where
  rsiPeriod : ℕ
  rsiOversold : ℚ
  rsiOverbought : ℚ
  maPeriod : ℕ
  stdDevMult : ℚ
  takeProfit : ℚ
  stopLoss : ℚ
  totalReturn : ℚ
  annualizedReturn : ℝ
  sharpeRatio : ℝ
  maxDrawdown : ℚ
  winRate : ℚ
  numTrades : ℕ
  profitFactor : ℚ
  avgTradeReturn : ℚ
  excessReturn : ℚ

/-- The result row built from a parameter set and its metrics. -/
def rsiMkResultRow (q : RSIMeanReversionParameters)
    (m : RSIMeanReversionMetrics) : RSIResultRow :=
  { rsiPeriod := q.rsiPeriod, rsiOversold := q.rsiOversold
    rsiOverbought := q.rsiOverbought, maPeriod := q.maPeriod
    stdDevMult := q.stdDevMultiplier, takeProfit := q.takeProfitPct
    stopLoss := q.stopLossPct, totalReturn := m.totalReturn
    annualizedReturn := m.annualizedReturn, sharpeRatio := m.sharpeRatio
    maxDrawdown := m.maxDrawdown, winRate := m.winRate
    numTrades := m.numTrades, profitFactor := m.profitFactor
    avgTradeReturn := m.avgTradeReturn, excessReturn := m.excessReturn }

/-- The per-grid-point pipeline run inside the optimizer's `try` block
(lines 434-438): a fresh `RSIMeanReversion(params)`, then
`calculate_signals(prices)`, `simulate_trades(signals)`,
`calculate_returns(signals)` and `calculate_metrics()`, threading the
instance state exactly as the methods mutate it. -/
noncomputable def rsiPipeline (prices : List (Option ℚ))
    (q : RSIMeanReversionParameters) : Except String RSIResultRow := do
  let st0 : RSIState := ⟨q, none, none, none⟩
  let signals ← rsiCalculateSignals q prices
  let st1 : RSIState := ⟨q, some signals, st0.trades, st0.returnsFrame⟩
  let trades ← rsiSimulateTradesM st1 (some signals)
  let st2 : RSIState := ⟨q, st1.signals, some trades, st1.returnsFrame⟩
  let (_, st3) ← rsiCalculateReturnsM st2 (some signals)
  let m ← rsiCalculateMetricsM st3
  pure (rsiMkResultRow q m)

/-- The results accumulated by `run_optimization`'s loop (lines
432-474): each grid point runs the pipeline inside `try`; an exception
is caught and the point is skipped (`continue`), otherwise its row is
appended to `self.results`. Progress printing and best-parameter
tracking do not affect the rows. -/
noncomputable def rsiRunOptimizationResults (prices : List (Option ℚ))
    (grid : List RSIMeanReversionParameters) : List RSIResultRow :=
  grid.foldl
    (fun acc q =>
      match rsiPipeline prices q with
      | .ok row => acc ++ [row]
      | .error _ => acc)
    []

/-- The results table returned by `run_optimization` (lines 474-489):
the accumulated rows sorted descending by the optimization metric
(default `'sharpe_ratio'`; the pandas string column lookup is modeled as
the corresponding field selector). -/
noncomputable def rsiRunOptimization (prices : List (Option ℚ))
    (grid : List RSIMeanReversionParameters) : List RSIResultRow :=
  open Classical in
  (rsiRunOptimizationResults prices grid).mergeSort
    (fun a b => decide (b.sharpeRatio ≤ a.sharpeRatio))

/-! ## SMA-200 LETF trend strategy
(`stock_dashboard-2/strategies/sma_letf_strategy.py`) -/

/-- `StrategyConfig` (sma_letf_strategy.py lines 20-29). Dates are
positions on a shared trading calendar (`ℕ`), so the `start_date`
comparison is a numeric one; capital and risk-free rate are real since
the daily rate is a fractional power. The ticker strings only label the
two data feeds and are omitted. -/
structure StrategyConfig where
  smaPeriod : ℕ := 200
  initialCapital : ℝ := 10000
  riskFreeRate : ℝ := 1 / 50
  startDate : ℕ := 0

/-- The signal-instrument close series as an option-valued list. -/
def smaSignalCloses (signalData : List (ℕ × ℚ)) : List (Option ℚ) :=
  signalData.map (fun x => some x.2)

/-- SMA-200 column (line 115): rolling mean of the signal close. -/
def smaSmaAt (cfg : StrategyConfig) (signalData : List (ℕ × ℚ)) (i : ℕ) : Option ℚ :=
  rollingMean cfg.smaPeriod (smaSignalCloses signalData) i

/-- Signal column (line 118): `(signal_close > sma_200).astype(int)`,
`0` while the SMA is missing since a comparison with `NaN` is false. -/
def smaSignalAt (cfg : StrategyConfig) (signalData : List (ℕ × ℚ)) (i : ℕ) : ℤ :=
  match signalData.get? i, smaSmaAt cfg signalData i with
  | some x, some m => if m < x.2 then 1 else 0
  | _, _ => 0

/-- Signal-change column (line 121): `signal.diff().fillna(0)`. -/
def smaSignalChangeAt (cfg : StrategyConfig) (signalData : List (ℕ × ℚ)) (i : ℕ) : ℤ :=
  match i with
  | 0 => 0
  | j + 1 => smaSignalAt cfg signalData (j + 1) - smaSignalAt cfg signalData j

/-- One surviving row of the frame returned by
`SMALETFStrategy.calculate_signals` (after the date filter and
`dropna`, every column is present). -/
structure SMARow where
  date : ℕ
  signalClose : ℚ
  tradeClose : ℚ
  sma : ℚ
  signal : ℤ
  signalChange : ℤ
deriving DecidableEq, Repr

/-- `SMALETFStrategy.calculate_signals` (lines 98-129): the trade close
is the trade feed reindexed onto the signal feed's dates (line 112,
missing where the date is absent); rows are computed on the full index,
then restricted to `index >= start_date` (line 124) and `dropna`
(line 127) keeps the rows whose trade close and SMA exist. There is no
guard against an empty feed. -/
def smaCalculateSignals (cfg : StrategyConfig) (signalData tradeData : List (ℕ × ℚ)) :
    List SMARow :=
  (List.range signalData.length).filterMap (fun i =>
    match signalData.get? i with
    | none => none
    | some x =>
        if cfg.startDate ≤ x.1 then
          match tradeData.lookup x.1, smaSmaAt cfg signalData i with
          | some tc, some m =>
              some ⟨x.1, x.2, tc, m, smaSignalAt cfg signalData i,
                smaSignalChangeAt cfg signalData i⟩
          | _, _ => none
        else none)

/-- Daily risk-free rate (line 145):
`(1 + risk_free_rate) ** (1/252) - 1`. -/
noncomputable def smaDailyRf (cfg : StrategyConfig) : ℝ :=
  (1 + cfg.riskFreeRate) ^ ((1 : ℝ) / 252) - 1

/-- LETF daily return (line 141): `trade_close.pct_change()` over the
filtered rows. -/
def smaTradeReturnAt (rows : List SMARow) (i : ℕ) : Option ℚ :=
  pctChangeAt (rows.map (fun r => some r.tradeClose)) 1 i

/-- Signal-instrument daily return (line 142). -/
def smaSignalReturnAt (rows : List SMARow) (i : ℕ) : Option ℚ :=
  pctChangeAt (rows.map (fun r => some r.signalClose)) 1 i

/-- Strategy daily return (lines 151-155):
`np.where(signal.shift(1) == 1, trade_return, daily_rf)`. On the first
row the shifted signal is `NaN`, the comparison is false and the
risk-free rate is selected; on later rows the previous row's signal
selects between the LETF return and the risk-free rate. -/
noncomputable def smaStrategyReturnAt (cfg : StrategyConfig) (rows : List SMARow)
    (i : ℕ) : Option ℝ :=
  match i with
  | 0 => some (smaDailyRf cfg)
  | j + 1 =>
      if (rows.get? j).map (fun r => r.signal) = some 1 then
        (smaTradeReturnAt rows (j + 1)).map (fun q => (q : ℝ))
      else some (smaDailyRf cfg)

/-- The backtest frame of `SMALETFStrategy.run_backtest`. -/
structure SMABacktest where
  tradeReturn : List (Option ℚ)
  signalReturn : List (Option ℚ)
  strategyReturn : List (Option ℝ)
  bhLetfReturn : List (Option ℚ)
  bhIndexReturn : List (Option ℚ)
  strategyValue : List (Option ℝ)
  bhLetfValue : List (Option ℝ)
  bhIndexValue : List (Option ℝ)
  strategyPeak : List (Option ℝ)
  strategyDrawdown : List (Option ℝ)
  bhLetfPeak : List (Option ℝ)
  bhLetfDrawdown : List (Option ℝ)

/-- Option-valued drawdown in percent:
`(value - peak) / peak * 100` (lines 170 and 173), missing where the
value is. -/
noncomputable def smaDrawdownCol (values peaks : List (Option ℝ)) : List (Option ℝ) :=
  List.zipWith (fun v q =>
    match v, q with
    | some a, some b => some ((a - b) / b * 100)
    | _, _ => none) values peaks

/-- `SMALETFStrategy.run_backtest` (lines 131-176) on the rows produced
by `calculate_signals`: daily returns, portfolio values
`capital * (1 + r).cumprod()` (pandas `cumprod` skips missing entries),
running peaks and percent drawdowns. -/
noncomputable def smaRunBacktest (cfg : StrategyConfig) (rows : List SMARow) :
    SMABacktest :=
  let n := rows.length
  let tr : List (Option ℚ) := (List.range n).map (smaTradeReturnAt rows)
  let sr : List (Option ℚ) := (List.range n).map (smaSignalReturnAt rows)
  let strat : List (Option ℝ) := (List.range n).map (smaStrategyReturnAt cfg rows)
  let stratValue : List (Option ℝ) :=
    (cumProd1Skip strat).map (fun v => v.map (fun x => cfg.initialCapital * x))
  let bhLetfValue : List (Option ℝ) :=
    (cumProd1Skip (tr.map (fun v => v.map (fun q => (q : ℝ))))).map
      (fun v => v.map (fun x => cfg.initialCapital * x))
  let bhIndexValue : List (Option ℝ) :=
    (cumProd1Skip (sr.map (fun v => v.map (fun q => (q : ℝ))))).map
      (fun v => v.map (fun x => cfg.initialCapital * x))
  let stratPeak := cumMaxOpt stratValue
  let bhLetfPeak := cumMaxOpt bhLetfValue
  { tradeReturn := tr
    signalReturn := sr
    strategyReturn := strat
    bhLetfReturn := tr
    bhIndexReturn := sr
    strategyValue := stratValue
    bhLetfValue := bhLetfValue
    bhIndexValue := bhIndexValue
    strategyPeak := stratPeak
    strategyDrawdown := smaDrawdownCol stratValue stratPeak
    bhLetfPeak := bhLetfPeak
    bhLetfDrawdown := smaDrawdownCol bhLetfValue bhLetfPeak }

/-! ## Supporting lemmas -/

theorem cumProd1Aux_length {α : Type} [Field α] (l : List (Option α)) :
    ∀ acc : α, (cumProd1Aux acc l).length = l.length := by
  induction l with
  | nil => intro acc; rfl
  | cons r rest ih => intro acc; simpa [cumProd1Aux] using ih _

theorem cumProd1_length {α : Type} [Field α] (l : List (Option α)) :
    (cumProd1 l).length = l.length := cumProd1Aux_length l 1

theorem cumProd1_head {α : Type} [Field α] (r : Option α) (rest : List (Option α)) :
    (cumProd1 (r :: rest)).head? = some (1 + r.getD 0) := by
  simp [cumProd1, cumProd1Aux]

/-- Every entry of `cumMaxAux m l` dominates the corresponding entry of
`l` and the seed `m`. -/
theorem cumMaxAux_facts {α : Type} [LinearOrder α] (l : List α) :
    ∀ (m : α) (i : ℕ) (c q : α), l[i]? = some c → (cumMaxAux m l)[i]? = some q →
      c ≤ q ∧ m ≤ q := by
  induction l with
  | nil => intro m i c q hc _; simp at hc
  | cons x rest ih =>
      intro m i c q hc hq
      cases i with
      | zero =>
          simp only [cumMaxAux, List.getElem?_cons_zero, Option.some.injEq] at hc hq
          subst hc; subst hq
          exact ⟨le_max_right _ _, le_max_left _ _⟩
      | succ j =>
          simp only [cumMaxAux, List.getElem?_cons_succ] at hc hq
          obtain ⟨h1, h2⟩ := ih (max m x) j c q hc hq
          exact ⟨h1, le_trans (le_max_left _ _) h2⟩

/-- Every entry of the running maximum dominates the corresponding
entry and the first entry of the list. -/
theorem cumMax_facts {α : Type} [LinearOrder α] (l : List α) (b : α)
    (hb : l.head? = some b) (i : ℕ) (c q : α)
    (hc : l[i]? = some c) (hq : (cumMax l)[i]? = some q) :
    c ≤ q ∧ b ≤ q := by
  cases l with
  | nil => simp at hb
  | cons x rest =>
      simp only [List.head?_cons, Option.some.injEq] at hb
      subst hb
      cases i with
      | zero =>
          simp only [cumMax, List.getElem?_cons_zero, Option.some.injEq] at hc hq
          subst hc; subst hq; exact ⟨le_refl _, le_refl _⟩
      | succ j =>
          simp only [cumMax, List.getElem?_cons_succ] at hc hq
          exact cumMaxAux_facts rest x j c q hc hq

/-- Core drawdown lemma: if the cumulative series starts at a positive
base, every drawdown entry is nonpositive and vanishes exactly where
the cumulative value equals its running maximum. -/
theorem drawdown_core {α : Type} [LinearOrderedField α] (cum : List α) (b : α)
    (hb : cum.head? = some b) (hbpos : 0 < b) (i : ℕ) (c q d : α)
    (hc : cum[i]? = some c) (hq : (cumMax cum)[i]? = some q)
    (hd : (drawdownOf cum)[i]? = some d) :
    d ≤ 0 ∧ (d = 0 ↔ c = q) := by
  have hfacts := cumMax_facts cum b hb i c q hc hq
  have hqpos : 0 < q := lt_of_lt_of_le hbpos hfacts.2
  have hdval : d = (c - q) / q := by
    have hz := @List.getElem?_zipWith _ _ _ cum (cumMax cum)
      (fun c p => (c - p) / p) i
    rw [drawdownOf, hz, hc, hq] at hd
    exact (Option.some.injEq _ _ ▸ hd).symm
  subst hdval
  constructor
  · exact div_nonpos_of_nonpos_of_nonneg (sub_nonpos.mpr hfacts.1) (le_of_lt hqpos)
  · rw [div_eq_zero_iff, sub_eq_zero]
    constructor
    · rintro (h | h)
      · exact h
      · exact absurd h (ne_of_gt hqpos)
    · intro h; exact Or.inl h

/-! ## Claim C6 — empty-input rejection -/

/-- Claim C6, counterexample. The TSM and RSI signal generators reject
an empty price series with the invalid-input error, but the SMA/LETF
generator, called when its fetched data is empty, silently produces an
empty signal frame instead of failing — refuting the claim that every
strategy family rejects empty input. -/
theorem emptyInputSMASilent :
    tsmCalculateSignals {} [] = .error "Price series cannot be empty" ∧
    rsiCalculateSignals {} [] = .error "Price series cannot be empty" ∧
    smaCalculateSignals {} [] [] = [] :=
  ⟨rfl, rfl, rfl⟩

/-- Claim C6, amended: the TSM and RSI generators fail with
`ValueError("Price series cannot be empty")` on an empty price series;
the SMA/LETF generator performs no such check and silently returns an
empty frame for an empty signal feed, whatever the trade feed. -/
theorem emptyInputRejection (p : TSMParameters) (q : RSIMeanReversionParameters)
    (cfg : StrategyConfig) (tradeData : List (ℕ × ℚ)) :
    tsmCalculateSignals p [] = .error "Price series cannot be empty" ∧
    rsiCalculateSignals q [] = .error "Price series cannot be empty" ∧
    smaCalculateSignals cfg [] tradeData = [] :=
  ⟨rfl, rfl, rfl⟩

/-! ## Claim C10 — trade log without signals -/

/-- Claim C10: `generate_trade_log` with neither a cached Signal Frame
nor an argument returns an empty table, while `calculate_strategy_returns`
and `calculate_performance_metrics` raise sequencing errors in the
analogous situation. -/
theorem tradeLogEmptyWithoutSignals (p : TSMParameters) (cs : Option TSMFrame) :
    tsmGenerateTradeLog none none = ([] : List TSMTrade) ∧
    tsmCalculateStrategyReturns p none none =
      .error "No signals available. Call calculate_signals() first." ∧
    tsmCalculatePerformanceMetrics p cs none none =
      .error "No returns available. Call calculate_strategy_returns() first." :=
  ⟨rfl, rfl, rfl⟩

/-! ## Claim C4 — take-profit checked before stop-loss -/

/-- Claim C4: on any bar processed while a position is open, the
take-profit condition is evaluated first, so whenever the realized
percentage move satisfies the take-profit threshold — in particular when
it simultaneously satisfies the stop-loss threshold, which the
parameters allow since they are not validated for sign — the simulator
closes the trade with exit reason `"Take Profit"` and goes flat, never
reaching the stop-loss branch. -/
theorem takeProfitBeforeStopLoss (p : RSIMeanReversionParameters)
    (lastIdx : ℕ) (lastClose : Option ℚ) (rest : List (Option ℚ × ℤ))
    (i : ℕ) (pos : ℤ) (ep : ℚ) (ei : Option ℕ) (c : ℚ) (raw : ℤ)
    (hpos : pos ≠ 0)
    (htp : p.takeProfitPct ≤ ((c / ep) - 1) * pos * 100)
    (hsl : ((c / ep) - 1) * pos * 100 ≤ -p.stopLossPct) :
    rsiSimAux p lastIdx lastClose ((some c, raw) :: rest) i pos ep ei =
      { entryIdx := ei
        exitIdx := i
        entryPrice := ep
        exitPrice := some c
        direction := if 0 < pos then "Long" else "Short"
        returnPct := some (((c / ep) - 1) * pos * 100)
        exitReason := "Take Profit"
        holdingDays := ei.map (fun e => i - e) }
        :: rsiSimAux p lastIdx lastClose rest (i + 1) 0 0 none := by
  simp only [rsiSimAux]
  rw [if_pos hpos, if_pos htp]

/-- Claim C4, witness: take profit `-10`, stop loss `5`, a long from
`100` marked at `93` has a move of `-7` percent crossing both
thresholds, and the simulator emits a `"Take Profit"` exit. -/
theorem takeProfitBeforeStopLoss_witness :
    ((1 : ℤ) ≠ 0) ∧
    (({ takeProfitPct := -10, stopLossPct := 5 } :
        RSIMeanReversionParameters).takeProfitPct ≤
      (((93 : ℚ) / 100) - 1) * 1 * 100) ∧
    ((((93 : ℚ) / 100) - 1) * 1 * 100 ≤
      -({ takeProfitPct := -10, stopLossPct := 5 } :
        RSIMeanReversionParameters).stopLossPct) ∧
    rsiSimAux { takeProfitPct := -10, stopLossPct := 5 } 5 (some 93)
        [(some 93, 0)] 3 1 100 (some 2) =
      { entryIdx := some 2
        exitIdx := 3
        entryPrice := 100
        exitPrice := some 93
        direction := if (0 : ℤ) < 1 then "Long" else "Short"
        returnPct := some ((((93 : ℚ) / 100) - 1) * 1 * 100)
        exitReason := "Take Profit"
        holdingDays := (some 2).map (fun e => 3 - e) }
        :: rsiSimAux { takeProfitPct := -10, stopLossPct := 5 } 5 (some 93)
          [] 4 0 0 none :=
  ⟨by decide, by norm_num, by norm_num,
    takeProfitBeforeStopLoss _ 5 (some 93) [] 3 1 100 (some 2) 93 0
      (by decide) (by norm_num) (by norm_num)⟩

/-! ## Claim C9 — optimizer fault isolation -/

theorem rsiRunOptimization_foldl (prices : List (Option ℚ))
    (grid : List RSIMeanReversionParameters) (acc : List RSIResultRow) :
    grid.foldl
      (fun acc q =>
        match rsiPipeline prices q with
        | .ok row => acc ++ [row]
        | .error _ => acc)
      acc =
    acc ++ grid.filterMap (fun q => (rsiPipeline prices q).toOption) := by
  induction grid generalizing acc with
  | nil => simp
  | cons q rest ih =>
      simp only [List.foldl_cons, List.filterMap_cons]
      cases h : rsiPipeline prices q with
      | ok row => simp [h, ih, Except.toOption]
      | error e => simp [h, ih, Except.toOption]

/-- Claim C9: the grid sweep catches per-point failures and skips them —
the accumulated results are exactly one row per grid point whose
pipeline run succeeds, in grid order, and the returned (sorted) table is
a permutation of those rows; a failing point never aborts the sweep. -/
theorem optimizerFaultIsolation (prices : List (Option ℚ))
    (grid : List RSIMeanReversionParameters) :
    rsiRunOptimizationResults prices grid =
      grid.filterMap (fun q => (rsiPipeline prices q).toOption) ∧
    (rsiRunOptimization prices grid).Perm
      (grid.filterMap (fun q => (rsiPipeline prices q).toOption)) := by
  have heq : rsiRunOptimizationResults prices grid =
      grid.filterMap (fun q => (rsiPipeline prices q).toOption) := by
    simpa [rsiRunOptimizationResults] using rsiRunOptimization_foldl prices grid []
  refine ⟨heq, ?_⟩
  rw [rsiRunOptimization, heq]
  exact List.mergeSort_perm _ _

/-! ## Claim C2 — trade non-overlap -/

/-- Non-overlap of two trade records: the earlier exit precedes the
later entry (stated over the present entry dates). -/
def rsiTradeOrder (a b : RSITrade) : Prop :=
  ∀ e, b.entryIdx = some e → a.exitIdx ≤ e

/-- Entry-date ordering of two RSI trade records. -/
def rsiEntryOrder (a b : RSITrade) : Prop :=
  ∀ ea eb, a.entryIdx = some ea → b.entryIdx = some eb → ea ≤ eb

/-- Prepending a closed trade to a chained, entry-bounded tail whose
entries all start strictly after the new trade's exit preserves the
three ordering invariants. -/
theorem rsiConsSpec (t0 : RSITrade) (ts : List RSITrade) (lb e : ℕ)
    (he : t0.entryIdx = some e) (hlb : lb ≤ e) (hle : e ≤ t0.exitIdx)
    (hC : List.Chain' rsiTradeOrder ts)
    (hF : ∀ t ∈ ts, ∃ e2, t.entryIdx = some e2 ∧ t0.exitIdx + 1 ≤ e2 ∧
      e2 ≤ t.exitIdx)
    (hP : List.Pairwise rsiEntryOrder ts) :
    List.Chain' rsiTradeOrder (t0 :: ts) ∧
    (∀ t ∈ t0 :: ts, ∃ e2, t.entryIdx = some e2 ∧ lb ≤ e2 ∧ e2 ≤ t.exitIdx) ∧
    List.Pairwise rsiEntryOrder (t0 :: ts) := by
  refine ⟨?_, ?_, ?_⟩
  · rw [List.chain'_cons']
    refine ⟨?_, hC⟩
    intro y hy e' he'
    obtain ⟨e2, he2, hgt, _⟩ := hF y (List.mem_of_mem_head? hy)
    rw [he2] at he'
    have : e2 = e' := by injection he'
    omega
  · intro t ht
    rcases List.mem_cons.mp ht with h | h
    · subst h; exact ⟨e, he, hlb, hle⟩
    · obtain ⟨e2, he2, hgt, hle2⟩ := hF t h
      exact ⟨e2, he2, by omega, hle2⟩
  · rw [List.pairwise_cons]
    refine ⟨?_, hP⟩
    intro y hy ea eb hea heb
    rw [he] at hea
    have h1 : e = ea := by injection hea
    obtain ⟨e2, he2, hgt, _⟩ := hF y hy
    rw [he2] at heb
    have h2 : e2 = eb := by injection heb
    omega

/-- Invariant of the RSI trade-simulation loop: from a consistent state
(an open position carries an entry no later than the current bar and the
final bar, a flat state has passed the lower bound), the emitted trades
are chained, carry well-formed entries above the lower bound, and are
ordered by entry. -/
theorem rsiSimAux_spec (p : RSIMeanReversionParameters) (lastIdx : ℕ)
    (lastClose : Option ℚ) :
    ∀ (rows : List (Option ℚ × ℤ)) (i : ℕ) (pos : ℤ) (ep : ℚ) (ei : Option ℕ)
      (lb : ℕ),
      (pos ≠ 0 → ∃ e, ei = some e ∧ lb ≤ e ∧ e ≤ i ∧ e ≤ lastIdx) →
      (pos = 0 → lb ≤ i) →
      i + rows.length ≤ lastIdx + 1 →
      List.Chain' rsiTradeOrder (rsiSimAux p lastIdx lastClose rows i pos ep ei) ∧
      (∀ t ∈ rsiSimAux p lastIdx lastClose rows i pos ep ei,
        ∃ e, t.entryIdx = some e ∧ lb ≤ e ∧ e ≤ t.exitIdx) ∧
      List.Pairwise rsiEntryOrder (rsiSimAux p lastIdx lastClose rows i pos ep ei) := by
  intro rows
  induction rows with
  | nil =>
      intro i pos ep ei lb hopen _ _
      by_cases hpos : pos ≠ 0
      · obtain ⟨e, hei, hlb, _, hel⟩ := hopen hpos
        subst hei
        simp only [rsiSimAux, if_pos hpos]
        refine ⟨List.chain'_singleton _, ?_, List.pairwise_singleton _ _⟩
        intro t ht
        simp only [List.mem_singleton] at ht
        subst ht
        exact ⟨e, rfl, hlb, hel⟩
      · simp only [rsiSimAux, if_neg hpos]
        exact ⟨List.chain'_nil, by simp, List.Pairwise.nil⟩
  | cons row rest ih =>
      intro i pos ep ei lb hopen hflat hlen
      obtain ⟨close, raw⟩ := row
      cases close with
      | none =>
          simp only [rsiSimAux]
          refine ih (i + 1) pos ep ei lb ?_ ?_ ?_
          · intro hpos
            obtain ⟨e, hei, hlb, hle, hel⟩ := hopen hpos
            exact ⟨e, hei, hlb, le_trans hle (Nat.le_succ i), hel⟩
          · intro h0; exact le_trans (hflat h0) (Nat.le_succ i)
          · simp only [List.length_cons] at hlen; omega
      | some c =>
          by_cases hpos : pos ≠ 0
          · obtain ⟨e, hei, hlb, hle, hel⟩ := hopen hpos
            have hrest := ih (i + 1) 0 0 none (i + 1)
              (fun h => absurd rfl h) (fun _ => le_refl _)
              (by simp only [List.length_cons] at hlen; omega)
            obtain ⟨hC, hF, hP⟩ := hrest
            have hF' : ∀ t ∈ rsiSimAux p lastIdx lastClose rest (i + 1) 0 0 none,
                ∃ e2, t.entryIdx = some e2 ∧ i + 1 ≤ e2 ∧ e2 ≤ t.exitIdx :=
              fun t ht => hF t ht
            simp only [rsiSimAux, if_pos hpos]
            by_cases htp : p.takeProfitPct ≤ ((c / ep) - 1) * pos * 100
            · rw [if_pos htp]
              exact rsiConsSpec _ _ lb e hei hlb hle hC hF' hP
            · rw [if_neg htp]
              by_cases hsl : ((c / ep) - 1) * pos * 100 ≤ -p.stopLossPct
              · rw [if_pos hsl]
                exact rsiConsSpec _ _ lb e hei hlb hle hC hF' hP
              · rw [if_neg hsl]
                refine ih (i + 1) pos ep ei lb ?_ ?_ ?_
                · intro _
                  exact ⟨e, hei, hlb, le_trans hle (Nat.le_succ i), hel⟩
                · intro h0; exact absurd h0 hpos
                · simp only [List.length_cons] at hlen; omega
          · push_neg at hpos
            simp only [rsiSimAux, if_neg (by simpa using hpos :
              ¬ pos ≠ 0)]
            by_cases hraw : raw ≠ 0
            · rw [if_pos hraw]
              refine ih (i + 1) raw c (some i) lb ?_ ?_ ?_
              · intro _
                refine ⟨i, rfl, hflat hpos, Nat.le_succ i, ?_⟩
                simp only [List.length_cons] at hlen; omega
              · intro h0; exact absurd h0 hraw
              · simp only [List.length_cons] at hlen; omega
            · rw [if_neg hraw]
              refine ih (i + 1) pos ep ei lb ?_ ?_ ?_
              · intro h; exact absurd hpos h
              · intro _; exact le_trans (hflat hpos) (Nat.le_succ i)
              · simp only [List.length_cons] at hlen; omega

/-- Non-overlap of two TSM trade-log rows. -/
def tsmTradeOrder (a b : TSMTrade) : Prop := a.exitIdx ≤ b.entryIdx

/-- Entry ordering of two TSM trade-log rows. -/
def tsmEntryOrder (a b : TSMTrade) : Prop := a.entryIdx ≤ b.entryIdx

/-- Prepending a closed TSM trade to a chained tail whose entries start
no earlier than the trade's exit preserves the ordering invariants. -/
theorem tsmConsSpec (t0 : TSMTrade) (ts : List TSMTrade) (lb : ℕ)
    (hlb : lb ≤ t0.entryIdx) (hle : t0.entryIdx ≤ t0.exitIdx)
    (hC : List.Chain' tsmTradeOrder ts)
    (hF : ∀ t ∈ ts, t0.exitIdx ≤ t.entryIdx ∧ t.entryIdx ≤ t.exitIdx)
    (hP : List.Pairwise tsmEntryOrder ts) :
    List.Chain' tsmTradeOrder (t0 :: ts) ∧
    (∀ t ∈ t0 :: ts, lb ≤ t.entryIdx ∧ t.entryIdx ≤ t.exitIdx) ∧
    List.Pairwise tsmEntryOrder (t0 :: ts) := by
  refine ⟨?_, ?_, ?_⟩
  · rw [List.chain'_cons']
    exact ⟨fun y hy => (hF y (List.mem_of_mem_head? hy)).1, hC⟩
  · intro t ht
    rcases List.mem_cons.mp ht with h | h
    · subst h; exact ⟨hlb, hle⟩
    · obtain ⟨h1, h2⟩ := hF t h
      exact ⟨by omega, h2⟩
  · rw [List.pairwise_cons]
    refine ⟨?_, hP⟩
    intro y hy
    have := (hF y hy).1
    simp only [tsmEntryOrder]
    omega

theorem tsmClosedTrades_none (close : Option ℚ) (i : ℕ) (pos : ℤ)
    (ep : Option ℚ) : tsmClosedTrades close i pos none ep = [] := rfl

theorem tsmClosedTrades_flat (close : Option ℚ) (i : ℕ) (ei : Option ℕ)
    (ep : Option ℚ) : tsmClosedTrades close i 0 ei ep = [] := by
  cases ei <;> simp [tsmClosedTrades]

theorem tsmClosedTrades_open (close : Option ℚ) (i : ℕ) (pos : ℤ) (e : ℕ)
    (ep : Option ℚ) (hpos : pos ≠ 0) :
    tsmClosedTrades close i pos (some e) ep =
      [{ entryIdx := e
         exitIdx := i
         entryPrice := ep
         exitPrice := close
         direction := if 0 < pos then "Long" else "Short"
         tradeReturn := do pure (((← close) / (← ep) - 1) * pos)
         holdingDays := i - e }] := by
  simp [tsmClosedTrades, if_pos hpos]

/-- Every trade emitted by the closing step has the recorded entry and
the current bar as exit. -/
theorem tsmClosedTrades_spec (close : Option ℚ) (i : ℕ) (pos : ℤ)
    (ei : Option ℕ) (ep : Option ℚ) (lb : ℕ)
    (hopen : pos ≠ 0 → ∃ e, ei = some e ∧ lb ≤ e ∧ e ≤ i) :
    ∀ t ∈ tsmClosedTrades close i pos ei ep,
      lb ≤ t.entryIdx ∧ t.entryIdx ≤ t.exitIdx ∧ t.exitIdx = i := by
  intro t ht
  by_cases hpos : pos ≠ 0
  · obtain ⟨e, hei, hlb, hle⟩ := hopen hpos
    subst hei
    rw [tsmClosedTrades_open close i pos e ep hpos] at ht
    simp only [List.mem_singleton] at ht
    subst ht
    exact ⟨hlb, hle, rfl⟩
  · push_neg at hpos
    subst hpos
    rw [tsmClosedTrades_flat] at ht
    simp at ht

/-- The closing step emits at most one trade. -/
theorem tsmClosedTrades_sublist_len (close : Option ℚ) (i : ℕ) (pos : ℤ)
    (ei : Option ℕ) (ep : Option ℚ) :
    tsmClosedTrades close i pos ei ep = [] ∨
    ∃ t0, tsmClosedTrades close i pos ei ep = [t0] := by
  cases ei with
  | none => exact Or.inl rfl
  | some e =>
      by_cases hpos : pos ≠ 0
      · exact Or.inr ⟨_, tsmClosedTrades_open close i pos e ep hpos⟩
      · push_neg at hpos; subst hpos
        exact Or.inl (tsmClosedTrades_flat close i (some e) ep)

/-- Invariant of the TSM trade-log loop, analogous to
`rsiSimAux_spec`. -/
theorem tsmTradeLogAux_spec :
    ∀ (rows : List (Option ℚ × Option ℤ)) (i : ℕ) (pos : ℤ) (ei : Option ℕ)
      (ep : Option ℚ) (lb : ℕ),
      (pos ≠ 0 → ∃ e, ei = some e ∧ lb ≤ e ∧ e ≤ i) →
      (pos = 0 → lb ≤ i) →
      List.Chain' tsmTradeOrder (tsmTradeLogAux rows i pos ei ep) ∧
      (∀ t ∈ tsmTradeLogAux rows i pos ei ep,
        lb ≤ t.entryIdx ∧ t.entryIdx ≤ t.exitIdx) ∧
      List.Pairwise tsmEntryOrder (tsmTradeLogAux rows i pos ei ep) := by
  intro rows
  induction rows with
  | nil =>
      intro i pos ei ep lb _ _
      exact ⟨List.chain'_nil, by simp [tsmTradeLogAux], by
        simp [tsmTradeLogAux]⟩
  | cons row rest ih =>
      intro i pos ei ep lb hopen hflat
      obtain ⟨close, sig⟩ := row
      have hlb_i : lb ≤ i := by
        rcases Decidable.eq_or_ne pos 0 with h0 | h0
        · exact hflat h0
        · obtain ⟨e, _, hlb, hle⟩ := hopen h0
          omega
      cases sig with
      | none =>
          simp only [tsmTradeLogAux]
          refine ih (i + 1) pos ei ep lb ?_ ?_
          · intro hpos
            obtain ⟨e, hei, hlb, hle⟩ := hopen hpos
            exact ⟨e, hei, hlb, le_trans hle (Nat.le_succ i)⟩
          · intro h0; exact le_trans (hflat h0) (Nat.le_succ i)
      | some s =>
          by_cases hs : s ≠ pos
          · simp only [tsmTradeLogAux, if_pos hs]
            have hassemble :
                ∀ (lbr : ℕ) (ts : List TSMTrade),
                  i ≤ lbr →
                  List.Chain' tsmTradeOrder ts →
                  (∀ t ∈ ts, lbr ≤ t.entryIdx ∧ t.entryIdx ≤ t.exitIdx) →
                  List.Pairwise tsmEntryOrder ts →
                  List.Chain' tsmTradeOrder
                    (tsmClosedTrades close i pos ei ep ++ ts) ∧
                  (∀ t ∈ tsmClosedTrades close i pos ei ep ++ ts,
                    lb ≤ t.entryIdx ∧ t.entryIdx ≤ t.exitIdx) ∧
                  List.Pairwise tsmEntryOrder
                    (tsmClosedTrades close i pos ei ep ++ ts) := by
              intro lbr ts hil hC hF hP
              have hspec := tsmClosedTrades_spec close i pos ei ep lb hopen
              rcases tsmClosedTrades_sublist_len close i pos ei ep with hnil | ⟨t0, ht0⟩
              · rw [hnil, List.nil_append]
                refine ⟨hC, ?_, hP⟩
                intro t ht
                obtain ⟨h1, h2⟩ := hF t ht
                exact ⟨by omega, h2⟩
              · rw [ht0, List.singleton_append]
                rw [ht0] at hspec
                obtain ⟨hlb0, hle0, hexit0⟩ := hspec t0 (List.mem_singleton_self t0)
                refine tsmConsSpec t0 ts lb hlb0 hle0 hC ?_ hP
                intro t ht
                obtain ⟨h1, h2⟩ := hF t ht
                rw [hexit0]
                exact ⟨by omega, h2⟩
            by_cases hnew : s ≠ 0
            · rw [if_pos hnew]
              exact hassemble i _ (le_refl i)
                (ih (i + 1) s (some i) close i
                  (fun _ => ⟨i, rfl, le_refl i, Nat.le_succ i⟩)
                  (fun h0 => absurd h0 hnew)).1
                (ih (i + 1) s (some i) close i
                  (fun _ => ⟨i, rfl, le_refl i, Nat.le_succ i⟩)
                  (fun h0 => absurd h0 hnew)).2.1
                (ih (i + 1) s (some i) close i
                  (fun _ => ⟨i, rfl, le_refl i, Nat.le_succ i⟩)
                  (fun h0 => absurd h0 hnew)).2.2
            · push_neg at hnew
              subst hnew
              rw [if_neg (by simp)]
              exact hassemble (i + 1) _ (Nat.le_succ i)
                (ih (i + 1) 0 ei ep (i + 1)
                  (fun h => absurd rfl h) (fun _ => le_refl _)).1
                (ih (i + 1) 0 ei ep (i + 1)
                  (fun h => absurd rfl h) (fun _ => le_refl _)).2.1
                (ih (i + 1) 0 ei ep (i + 1)
                  (fun h => absurd rfl h) (fun _ => le_refl _)).2.2
          · push_neg at hs
            simp only [tsmTradeLogAux, if_neg (by simpa using hs : ¬ s ≠ pos)]
            refine ih (i + 1) pos ei ep lb ?_ ?_
            · intro hpos
              obtain ⟨e, hei, hlb, hle⟩ := hopen hpos
              exact ⟨e, hei, hlb, le_trans hle (Nat.le_succ i)⟩
            · intro h0; exact le_trans (hflat h0) (Nat.le_succ i)

/-- Claim C2: the trade lists produced by one simulation run — RSI
`simulate_trades` on a Signal Frame, or TSM `generate_trade_log` on the
object state — are non-overlapping (each exit occurs no later than the
next entry), each trade's entry is no later than its exit, and the list
is ordered by entry date; a single open position at a time is thereby
structural. -/
theorem tradeNonOverlap (p : RSIMeanReversionParameters) (f : RSIFrame)
    (cachedSignals : Option TSMFrame) (arg : Option TSMFrame) :
    (List.Chain' rsiTradeOrder (rsiSimulateTrades p f) ∧
      (∀ t ∈ rsiSimulateTrades p f,
        ∃ e, t.entryIdx = some e ∧ e ≤ t.exitIdx) ∧
      List.Pairwise rsiEntryOrder (rsiSimulateTrades p f)) ∧
    (List.Chain' tsmTradeOrder (tsmGenerateTradeLog cachedSignals arg) ∧
      (∀ t ∈ tsmGenerateTradeLog cachedSignals arg,
        t.entryIdx ≤ t.exitIdx) ∧
      List.Pairwise tsmEntryOrder (tsmGenerateTradeLog cachedSignals arg)) := by
  constructor
  · have h := rsiSimAux_spec p (f.close.length - 1)
      ((f.close.getLast?).getD none) (f.close.zip f.rawSignal) 0 0 0 none 0
      (fun h => absurd rfl h) (fun _ => le_refl 0)
      (by
        have : (f.close.zip f.rawSignal).length ≤ f.close.length :=
          le_trans (List.length_zip ..).le (min_le_left _ _)
        omega)
    obtain ⟨hC, hF, hP⟩ := h
    refine ⟨hC, ?_, hP⟩
    intro t ht
    obtain ⟨e, he, _, hle⟩ := hF t ht
    exact ⟨e, he, hle⟩
  · rw [tsmGenerateTradeLog]
    cases harg : arg.orElse (fun _ => cachedSignals) with
    | none => exact ⟨List.chain'_nil, by simp, List.Pairwise.nil⟩
    | some sf =>
        have h := tsmTradeLogAux_spec (sf.close.zip sf.signal) 0 0 none none 0
          (fun h => absurd rfl h) (fun _ => le_refl 0)
        obtain ⟨hC, hF, hP⟩ := h
        exact ⟨hC, fun t ht => (hF t ht).2, hP⟩

/-! ## Claims C3 and C7 — drawdown sign and cumulative base -/

theorem getElem?_map_range {β : Type} (g : ℕ → β) {n i : ℕ} (h : i < n) :
    ((List.range n).map g)[i]? = some (g i) := by
  rw [List.getElem?_map, List.getElem?_range h]; rfl

theorem getD_map_range {β : Type} (g : ℕ → β) {n i : ℕ} (d : β) (h : i < n) :
    ((List.range n).map g).getD i d = g i := by
  rw [List.getD_eq_getElem?_getD, getElem?_map_range g h]; rfl

theorem oltR_none_right (a : Option ℝ) : ¬ oltR a none := by
  cases a <;> simp [oltR]

theorem oltR_none_left (b : Option ℝ) : ¬ oltR none b := by
  cases b <;> simp [oltR]

theorem omul_none_left {α : Type} [Mul α] (b : Option α) :
    omul (none : Option α) b = none := rfl

/-- The TSM signal column is missing on the first row: the one-day
forward shift leaves no signal for day `0`. -/
theorem tsmSignalsFrame_signal_head (p : TSMParameters) (prices : List (Option ℚ)) :
    (tsmSignalsFrame p prices).signal.getD 0 none = none := by
  cases prices with
  | nil => rfl
  | cons x rest =>
      show ((List.range (x :: rest).length).map (tsmSignalAt p (x :: rest))).getD
        0 none = none
      rw [getD_map_range _ none (by simp)]
      rfl

/-- The TSM returns column is missing on the first row
(`pct_change` has no prior observation). -/
theorem tsmSignalsFrame_returns_head (p : TSMParameters) (prices : List (Option ℚ)) :
    (tsmSignalsFrame p prices).returns.getD 0 none = none := by
  cases prices with
  | nil => rfl
  | cons x rest =>
      show ((List.range (x :: rest).length).map (tsmReturnsAt (x :: rest))).getD
        0 none = none
      rw [getD_map_range _ none (by simp)]
      rfl

/-- With a nonempty price series, both cumulative curves of the TSM
Returns Frame built from the generated Signal Frame start at the base
index `100`: the day-0 strategy and benchmark returns are missing, and
`fillna(0)` makes the first cumulative factor `1`. -/
theorem tsmCum_head (p : TSMParameters) (prices : List (Option ℚ))
    (hne : prices ≠ []) :
    (tsmStrategyReturnsFrame p (tsmSignalsFrame p prices)).cumulativeStrategy.head? =
      some 100 ∧
    (tsmStrategyReturnsFrame p (tsmSignalsFrame p prices)).cumulativeBenchmark.head? =
      some 100 := by
  obtain ⟨x, rest, hx⟩ : ∃ x rest, prices = x :: rest := by
    cases prices with
    | nil => exact absurd rfl hne
    | cons x rest => exact ⟨x, rest, rfl⟩
  subst hx
  constructor
  · show ((cumProd1 ((List.range ((tsmSignalsFrame p (x :: rest)).close.length)).map
      _)).map (· * 100)).head? = some 100
    have hlen : (tsmSignalsFrame p (x :: rest)).close.length = rest.length + 1 := by
      simp [tsmSignalsFrame]
    rw [hlen, List.range_succ_eq_map, List.map_cons]
    have hsig := tsmSignalsFrame_signal_head p (x :: rest)
    simp only [hsig, omul_none_left, Option.map_none]
    by_cases hvol : p.enableVolatilityScaling <;>
      simp [hvol, cumProd1, cumProd1Aux, omul]
  · show ((cumProd1 (tsmSignalsFrame p (x :: rest)).returns).map (· * 100)).head? =
      some 100
    show ((cumProd1 ((List.range ((x : Option ℚ) :: rest).length).map
      (tsmReturnsAt (x :: rest)))).map (· * 100)).head? = some 100
    rw [List.length_cons, List.range_succ_eq_map, List.map_cons]
    have h0 : tsmReturnsAt (x :: rest) 0 = none := rfl
    rw [h0]
    simp [cumProd1, cumProd1Aux]

/-- The rolling standard deviation is missing on row `0`: a window of
length `≥ 2` does not fit, and a window of length `≤ 1` yields `NaN`
(`ddof = 1`). -/
theorem rollingStd_zero (w : ℕ) (l : List (Option ℚ)) : rollingStd w l 0 = none := by
  by_cases hw : 2 ≤ w
  · rw [rollingStd, if_pos hw, rollingWindow, if_neg (by omega)]
    rfl
  · rw [rollingStd, if_neg hw]

theorem rsiLowerBandAt_zero (p : RSIMeanReversionParameters)
    (prices : List (Option ℚ)) : rsiLowerBandAt p prices 0 = none := by
  rw [rsiLowerBandAt]
  have h := rollingStd_zero p.maPeriod prices
  cases hma : rsiMaAt p prices 0 <;>
    simp [rsiStdAt, h, hma, bind]

theorem rsiUpperBandAt_zero (p : RSIMeanReversionParameters)
    (prices : List (Option ℚ)) : rsiUpperBandAt p prices 0 = none := by
  rw [rsiUpperBandAt]
  have h := rollingStd_zero p.maPeriod prices
  cases hma : rsiMaAt p prices 0 <;>
    simp [rsiStdAt, h, hma, bind]

/-- The raw RSI signal on row `0` is flat: both entry conditions compare
against a Bollinger band whose standard deviation is missing, and a
comparison with a missing value is false. -/
theorem rsiRawSignalAt_zero (p : RSIMeanReversionParameters)
    (prices : List (Option ℚ)) : rsiRawSignalAt p prices 0 = 0 := by
  rw [rsiRawSignalAt]
  have hshort : ¬ ((p.positionKind = .short_only ∨ p.positionKind = .long_short) ∧
      rsiShortCondAt p prices 0) := by
    rintro ⟨-, hsc⟩
    have hlt := hsc.2
    rw [rsiUpperBandAt_zero] at hlt
    exact oltR_none_left _ hlt
  have hlong : ¬ ((p.positionKind = .long_only ∨ p.positionKind = .long_short) ∧
      rsiLongCondAt p prices 0) := by
    rintro ⟨-, hlc⟩
    have hlt := hlc.2
    rw [rsiLowerBandAt_zero] at hlt
    exact oltR_none_right _ hlt
  rw [if_neg hshort, if_neg hlong]

/-- Every trade simulated on a generated RSI Signal Frame enters at bar
`1` or later: bar `0` never carries an entry signal. -/
theorem rsiTrades_entry_pos (p : RSIMeanReversionParameters)
    (prices : List (Option ℚ)) :
    ∀ t ∈ rsiSimulateTrades p (rsiSignalsFrame p prices),
      ∃ e, t.entryIdx = some e ∧ 1 ≤ e ∧ e ≤ t.exitIdx := by
  cases prices with
  | nil => intro t ht; simp [rsiSimulateTrades, rsiSignalsFrame, rsiSimAux] at ht
  | cons x rest =>
      set f := rsiSignalsFrame p (x :: rest) with hf
      have hclose : f.close = x :: rest := rfl
      have hraw : ∃ rr, f.rawSignal = 0 :: rr := by
        refine ⟨(List.map Nat.succ (List.range rest.length)).map
          (rsiRawSignalAt p (x :: rest)), ?_⟩
        show (List.range (x :: rest).length).map (rsiRawSignalAt p (x :: rest)) = _
        rw [List.length_cons, List.range_succ_eq_map, List.map_cons,
          rsiRawSignalAt_zero]
      obtain ⟨rr, hraw⟩ := hraw
      intro t ht
      rw [rsiSimulateTrades, hclose, hraw] at ht
      simp only [List.zip_cons_cons] at ht
      have hlen : (rest.zip rr).length ≤ rest.length :=
        le_trans (List.length_zip ..).le (min_le_left _ _)
      have hspec := rsiSimAux_spec p ((x :: rest).length - 1)
        (((x :: rest : List (Option ℚ)).getLast?).getD none)
        (rest.zip rr) 1 0 0 none 1
        (fun h => absurd rfl h) (fun _ => le_refl 1)
        (by simp only [List.length_cons]; omega)
      cases x with
      | none =>
          rw [rsiSimAux] at ht
          exact hspec.2.1 t ht
      | some c =>
          rw [rsiSimAux] at ht
          rw [if_neg (by simp), if_neg (by simp)] at ht
          exact hspec.2.1 t ht

/-- With a nonempty price series, both cumulative curves of the RSI
Returns Frame built from the generated Signal Frame and its simulated
trades start at the base index `100`: no trade covers bar `0` (so the
day-0 strategy return is the initial `0.0`), and the day-0 benchmark
return is missing. -/
theorem rsiCum_head (p : RSIMeanReversionParameters) (prices : List (Option ℚ))
    (hne : prices ≠ []) :
    (rsiReturnsFrame (rsiSignalsFrame p prices)
      (rsiSimulateTrades p (rsiSignalsFrame p prices))).cumulativeStrategy.head? =
      some 100 ∧
    (rsiReturnsFrame (rsiSignalsFrame p prices)
      (rsiSimulateTrades p (rsiSignalsFrame p prices))).cumulativeBenchmark.head? =
      some 100 := by
  obtain ⟨x, rest, hx⟩ : ∃ x rest, prices = x :: rest := by
    cases prices with
    | nil => exact absurd rfl hne
    | cons x rest => exact ⟨x, rest, rfl⟩
  subst hx
  have hfilter :
      ((rsiSimulateTrades p (rsiSignalsFrame p (x :: rest))).filter
        (fun t => rsiTradeCovers t 0)) = [] := by
    rw [List.filter_eq_nil_iff]
    intro t ht
    obtain ⟨e, he, h1, _⟩ := rsiTrades_entry_pos p (x :: rest) t ht
    simp only [rsiTradeCovers, he]
    simp only [Bool.and_eq_true, decide_eq_true_eq, not_and]
    omega
  constructor
  · show ((cumProd1 ((List.range ((rsiSignalsFrame p (x :: rest)).close.length)).map
      _)).map (· * 100)).head? = some 100
    have hlen : (rsiSignalsFrame p (x :: rest)).close.length = rest.length + 1 := by
      simp [rsiSignalsFrame]
    rw [hlen, List.range_succ_eq_map, List.map_cons]
    simp only [hfilter, List.getLast?_nil]
    simp [cumProd1, cumProd1Aux]
  · show ((cumProd1 (rsiSignalsFrame p (x :: rest)).returns).map (· * 100)).head? =
      some 100
    show ((cumProd1 ((List.range ((x : Option ℚ) :: rest).length).map
      (pctChangeAt (x :: rest) 1))).map (· * 100)).head? = some 100
    rw [List.length_cons, List.range_succ_eq_map, List.map_cons]
    have h0 : pctChangeAt (x :: rest) 1 0 = none := rfl
    rw [h0]
    simp [cumProd1, cumProd1Aux]

/-- A skipping cumulative product of factors `1 + x` with `x > -1`
stays positive when started from a positive accumulator. -/
theorem cumProd1SkipAux_pos (l : List (Option ℝ)) :
    ∀ (acc : ℝ), 0 < acc →
      (∀ (j : ℕ) (x : ℝ), l[j]? = some (some x) → -1 < x) →
      ∀ (i : ℕ) (v : ℝ), (cumProd1SkipAux acc l)[i]? = some (some v) → 0 < v := by
  induction l with
  | nil => intro acc _ _ i v hv; simp [cumProd1SkipAux] at hv
  | cons r rest ih =>
      intro acc hacc hentries i v hv
      cases r with
      | some x =>
          have hx : -1 < x := hentries 0 x (by simp)
          have hacc' : 0 < acc * (1 + x) := mul_pos hacc (by linarith)
          cases i with
          | zero =>
              simp only [cumProd1SkipAux, List.getElem?_cons_zero,
                Option.some.injEq] at hv
              exact hv ▸ hacc'
          | succ j =>
              simp only [cumProd1SkipAux, List.getElem?_cons_succ] at hv
              exact ih (acc * (1 + x)) hacc'
                (fun k y hy => hentries (k + 1) y (by simpa using hy)) j v hv
      | none =>
          cases i with
          | zero =>
              simp only [cumProd1SkipAux, List.getElem?_cons_zero] at hv
              exact absurd hv (by simp)
          | succ j =>
              simp only [cumProd1SkipAux, List.getElem?_cons_succ] at hv
              exact ih acc hacc
                (fun k y hy => hentries (k + 1) y (by simpa using hy)) j v hv

/-- The skipping running maximum dominates every present value. -/
theorem cumMaxOptAux_facts (l : List (Option ℝ)) :
    ∀ (m : Option ℝ) (i : ℕ) (v : ℝ) (q : Option ℝ),
      l[i]? = some (some v) → (cumMaxOptAux m l)[i]? = some q →
      ∃ qq, q = some qq ∧ v ≤ qq := by
  induction l with
  | nil => intro m i v q hv _; simp at hv
  | cons x rest ih =>
      intro m i v q hv hq
      cases i with
      | zero =>
          simp only [List.getElem?_cons_zero, Option.some.injEq] at hv
          subst hv
          simp only [cumMaxOptAux, List.getElem?_cons_zero, Option.some.injEq] at hq
          cases m with
          | none => exact ⟨v, by rw [← hq], le_refl v⟩
          | some a => exact ⟨max a v, by rw [← hq], le_max_right a v⟩
      | succ j =>
          simp only [List.getElem?_cons_succ] at hv
          simp only [cumMaxOptAux, List.getElem?_cons_succ] at hq
          exact ih _ j v q hv hq

/-- Core drawdown lemma for the option-valued SMA columns: when the
value present at a position is positive, its drawdown is nonpositive and
vanishes exactly where the value equals the running peak. -/
theorem smaDrawdown_core (values : List (Option ℝ))
    (hpos : ∀ (i : ℕ) (v : ℝ), values[i]? = some (some v) → 0 < v)
    (i : ℕ) (v q d : ℝ)
    (hv : values[i]? = some (some v))
    (hq : (cumMaxOpt values)[i]? = some (some q))
    (hd : (smaDrawdownCol values (cumMaxOpt values))[i]? = some (some d)) :
    d ≤ 0 ∧ (d = 0 ↔ v = q) := by
  obtain ⟨qq, hqq, hvq⟩ := cumMaxOptAux_facts values none i v (some q) hv hq
  have hqv : qq = q := by injection hqq.symm
  subst hqv
  have hvpos : 0 < v := hpos i v hv
  have hqpos : 0 < qq := lt_of_lt_of_le hvpos hvq
  have hdval : d = (v - qq) / qq * 100 := by
    have hzip := @List.getElem?_zipWith _ _ _ values (cumMaxOpt values)
      (fun a b =>
        match a, b with
        | some a, some b => some ((a - b) / b * 100)
        | _, _ => none) i
    rw [smaDrawdownCol, hzip, hv, hq] at hd
    simp only [Option.some.injEq] at hd
    exact hd.symm
  subst hdval
  constructor
  · have h1 : (v - qq) / qq ≤ 0 :=
      div_nonpos_of_nonpos_of_nonneg (sub_nonpos.mpr hvq) (le_of_lt hqpos)
    nlinarith
  · constructor
    · intro h0
      have : (v - qq) / qq = 0 := by nlinarith
      rcases div_eq_zero_iff.mp this with h | h
      · linarith [sub_eq_zero.mp h]
      · exact absurd h (ne_of_gt hqpos)
    · intro h; rw [h]; simp

theorem getD_map_some {β γ : Type} (g : β → γ) (l : List β) (m : ℕ) :
    (l.map (fun r => some (g r))).getD m none = (l[m]?).map g := by
  rw [List.getD_eq_getElem?_getD, List.getElem?_map]
  cases l[m]? <;> rfl

/-- The daily risk-free rate exceeds `-1` whenever `1 + risk_free_rate`
is positive. -/
theorem smaDailyRf_gt (cfg : StrategyConfig) (hrf : 0 < 1 + cfg.riskFreeRate) :
    -1 < smaDailyRf cfg := by
  have h := Real.rpow_pos_of_pos hrf ((1 : ℝ) / 252)
  rw [smaDailyRf]; linarith

/-- A present LETF daily return is a ratio of positive closes minus one,
hence exceeds `-1`. -/
theorem smaTradeReturn_gt (rows : List SMARow)
    (hcl : ∀ r ∈ rows, 0 < r.tradeClose) (m : ℕ) (r : ℚ)
    (hr : smaTradeReturnAt rows m = some r) : -1 < r := by
  rw [smaTradeReturnAt, pctChangeAt] at hr
  by_cases h1 : 1 ≤ m
  · rw [if_pos h1] at hr
    rw [getD_map_some, getD_map_some] at hr
    cases hA : rows[m]? with
    | none => rw [hA] at hr; simp at hr
    | some rowA =>
        cases hB : rows[m - 1]? with
        | none => rw [hA, hB] at hr; simp at hr
        | some rowB =>
            rw [hA, hB] at hr
            have hr2 : rowA.tradeClose / rowB.tradeClose - 1 = r := by
              simpa using hr
            have hApos : 0 < rowA.tradeClose := hcl rowA (List.getElem?_mem hA)
            have hBpos : 0 < rowB.tradeClose := hcl rowB (List.getElem?_mem hB)
            have : 0 < rowA.tradeClose / rowB.tradeClose := div_pos hApos hBpos
            rw [← hr2]
            linarith
  · rw [if_neg h1] at hr
    exact absurd hr (by simp)

/-- Present entries of the SMA strategy-return column exceed `-1`,
provided `1 + risk_free_rate` is positive and the traded closes are. -/
theorem smaStrategyReturn_entries (cfg : StrategyConfig) (rows : List SMARow)
    (hrf : 0 < 1 + cfg.riskFreeRate) (hcl : ∀ r ∈ rows, 0 < r.tradeClose) :
    ∀ (j : ℕ) (x : ℝ),
      ((List.range rows.length).map (smaStrategyReturnAt cfg rows))[j]? =
        some (some x) → -1 < x := by
  have hdrf : -1 < smaDailyRf cfg := smaDailyRf_gt cfg hrf
  intro j x hx
  rw [List.getElem?_map] at hx
  cases hR : (List.range rows.length)[j]? with
  | none => rw [hR] at hx; simp at hx
  | some jj =>
      rw [hR] at hx
      simp only [Option.map_some', Option.some.injEq] at hx
      have hjj : jj = j := by
        rcases Nat.lt_or_ge j rows.length with hlt | hge
        · rw [List.getElem?_range hlt] at hR
          injection hR with h
          exact h.symm
        · rw [List.getElem?_eq_none (by simpa using hge)] at hR; cases hR
      rw [hjj] at hx
      cases j with
      | zero =>
          simp only [smaStrategyReturnAt, Option.some.injEq] at hx
          rw [← hx]; exact hdrf
      | succ k =>
          simp only [smaStrategyReturnAt] at hx
          by_cases hsig : (rows.get? k).map (fun r => r.signal) = some 1
          · rw [if_pos hsig] at hx
            cases htr : smaTradeReturnAt rows (k + 1) with
            | none => rw [htr] at hx; simp at hx
            | some r =>
                rw [htr] at hx
                have hxr : (r : ℝ) = x := by simpa using hx
                have hgt := smaTradeReturn_gt rows hcl (k + 1) r htr
                rw [← hxr]
                exact_mod_cast hgt
          · rw [if_neg hsig] at hx
            simp only [Option.some.injEq] at hx
            rw [← hx]; exact hdrf

/-- Present entries of the LETF buy-and-hold return column exceed `-1`
when the traded closes are positive. -/
theorem smaBhReturn_entries (rows : List SMARow)
    (hcl : ∀ r ∈ rows, 0 < r.tradeClose) :
    ∀ (j : ℕ) (x : ℝ),
      (((List.range rows.length).map (smaTradeReturnAt rows)).map
        (fun v => v.map (fun q => (q : ℝ))))[j]? = some (some x) → -1 < x := by
  intro j x hx
  rw [List.getElem?_map] at hx
  cases hR : ((List.range rows.length).map (smaTradeReturnAt rows))[j]? with
  | none => rw [hR] at hx; simp at hx
  | some v =>
      rw [hR] at hx
      simp only [Option.map_some', Option.some.injEq] at hx
      cases v with
      | none => exact absurd hx (by simp)
      | some r =>
          have hxr : (r : ℝ) = x := by simpa using hx
          rw [List.getElem?_map] at hR
          cases hRR : (List.range rows.length)[j]? with
          | none => rw [hRR] at hR; simp at hR
          | some jj =>
              rw [hRR] at hR
              simp only [Option.map_some', Option.some.injEq] at hR
              have hgt := smaTradeReturn_gt rows hcl jj r hR
              rw [← hxr]
              exact_mod_cast hgt

/-- First-row values of the SMA backtest: the strategy value is the
capital grown by one day of risk-free rate (the shifted signal is
missing, so `np.where` selects the risk-free leg), while the
buy-and-hold LETF value is missing (its day-0 return is). -/
theorem smaValue_head (cfg : StrategyConfig) (rows : List SMARow)
    (hne : rows ≠ []) :
    (smaRunBacktest cfg rows).strategyValue.head? =
      some (some (cfg.initialCapital * (1 * (1 + smaDailyRf cfg)))) ∧
    (smaRunBacktest cfg rows).bhLetfValue.head? = some none := by
  obtain ⟨r0, rest, hx⟩ : ∃ r0 rest, rows = r0 :: rest := by
    cases rows with
    | nil => exact absurd rfl hne
    | cons r0 rest => exact ⟨r0, rest, rfl⟩
  subst hx
  constructor
  · show ((cumProd1Skip ((List.range ((r0 :: rest).length)).map
      (smaStrategyReturnAt cfg (r0 :: rest)))).map
        (fun v => v.map (fun x => cfg.initialCapital * x))).head? = _
    rw [List.length_cons, List.range_succ_eq_map, List.map_cons]
    have h0 : smaStrategyReturnAt cfg (r0 :: rest) 0 = some (smaDailyRf cfg) := rfl
    rw [h0]
    simp [cumProd1Skip, cumProd1SkipAux]
  · show ((cumProd1Skip (((List.range ((r0 :: rest).length)).map
      (smaTradeReturnAt (r0 :: rest))).map
        (fun v => v.map (fun q => (q : ℝ))))).map
          (fun v => v.map (fun x => cfg.initialCapital * x))).head? = _
    rw [List.length_cons, List.range_succ_eq_map, List.map_cons]
    have h0 : smaTradeReturnAt (r0 :: rest) 0 = none := rfl
    rw [h0]
    simp [cumProd1Skip, cumProd1SkipAux]

/-- All present strategy values of the SMA backtest are positive under
positive capital, a positive `1 + risk_free_rate` and positive traded
closes. -/
theorem smaStrategyValue_pos (cfg : StrategyConfig) (rows : List SMARow)
    (hcap : 0 < cfg.initialCapital) (hrf : 0 < 1 + cfg.riskFreeRate)
    (hcl : ∀ r ∈ rows, 0 < r.tradeClose) :
    ∀ (i : ℕ) (v : ℝ),
      (smaRunBacktest cfg rows).strategyValue[i]? = some (some v) → 0 < v := by
  intro i v hv
  have hv' : ((cumProd1Skip ((List.range rows.length).map
      (smaStrategyReturnAt cfg rows))).map
        (fun w => w.map (fun x => cfg.initialCapital * x)))[i]? = some (some v) := hv
  rw [List.getElem?_map] at hv'
  cases hC : (cumProd1Skip ((List.range rows.length).map
      (smaStrategyReturnAt cfg rows)))[i]? with
  | none => rw [hC] at hv'; simp at hv'
  | some w =>
      rw [hC] at hv'
      simp only [Option.map_some', Option.some.injEq] at hv'
      cases w with
      | none => exact absurd hv' (by simp)
      | some x =>
          simp only [Option.map_some', Option.some.injEq] at hv'
          have hxpos : 0 < x :=
            cumProd1SkipAux_pos _ 1 one_pos
              (smaStrategyReturn_entries cfg rows hrf hcl) i x hC
          rw [← hv']
          exact mul_pos hcap hxpos

/-- All present LETF buy-and-hold values of the SMA backtest are
positive under positive capital and positive traded closes. -/
theorem smaBhValue_pos (cfg : StrategyConfig) (rows : List SMARow)
    (hcap : 0 < cfg.initialCapital)
    (hcl : ∀ r ∈ rows, 0 < r.tradeClose) :
    ∀ (i : ℕ) (v : ℝ),
      (smaRunBacktest cfg rows).bhLetfValue[i]? = some (some v) → 0 < v := by
  intro i v hv
  have hv' : ((cumProd1Skip (((List.range rows.length).map
      (smaTradeReturnAt rows)).map
        (fun w => w.map (fun q => (q : ℝ))))).map
          (fun w => w.map (fun x => cfg.initialCapital * x)))[i]? =
      some (some v) := hv
  rw [List.getElem?_map] at hv'
  cases hC : (cumProd1Skip (((List.range rows.length).map
      (smaTradeReturnAt rows)).map (fun w => w.map (fun q => (q : ℝ)))))[i]? with
  | none => rw [hC] at hv'; simp at hv'
  | some w =>
      rw [hC] at hv'
      simp only [Option.map_some', Option.some.injEq] at hv'
      cases w with
      | none => exact absurd hv' (by simp)
      | some x =>
          simp only [Option.map_some', Option.some.injEq] at hv'
          have hxpos : 0 < x :=
            cumProd1SkipAux_pos _ 1 one_pos
              (smaBhReturn_entries rows hcl) i x hC
          rw [← hv']
          exact mul_pos hcap hxpos

/-- Claim C3: for every Returns Frame the three strategy families
produce from their generated signals, the drawdown is nonpositive
everywhere and vanishes exactly where the cumulative value equals its
running maximum. The SMA/LETF conjunct assumes a positive initial
capital, `1 + risk_free_rate > 0` and positive traded closes — the
domain of the configurations and price data the strategy is run on. -/
theorem drawdownNonpositive :
    (∀ (p : TSMParameters) (prices : List (Option ℚ)) (f : TSMFrame),
      tsmCalculateSignals p prices = .ok f →
      ∀ (i : ℕ) (c q d : ℝ),
        (tsmStrategyReturnsFrame p f).cumulativeStrategy[i]? = some c →
        (tsmStrategyReturnsFrame p f).peak[i]? = some q →
        (tsmStrategyReturnsFrame p f).drawdown[i]? = some d →
        d ≤ 0 ∧ (d = 0 ↔ c = q)) ∧
    (∀ (p : RSIMeanReversionParameters) (prices : List (Option ℚ)) (f : RSIFrame),
      rsiCalculateSignals p prices = .ok f →
      ∀ (i : ℕ) (c q d : ℚ),
        (rsiReturnsFrame f (rsiSimulateTrades p f)).cumulativeStrategy[i]? = some c →
        (rsiReturnsFrame f (rsiSimulateTrades p f)).peak[i]? = some q →
        (rsiReturnsFrame f (rsiSimulateTrades p f)).drawdown[i]? = some d →
        d ≤ 0 ∧ (d = 0 ↔ c = q)) ∧
    (∀ (cfg : StrategyConfig) (rows : List SMARow),
      0 < cfg.initialCapital → 0 < 1 + cfg.riskFreeRate →
      (∀ r ∈ rows, 0 < r.tradeClose) →
      (∀ (i : ℕ) (v q d : ℝ),
        (smaRunBacktest cfg rows).strategyValue[i]? = some (some v) →
        (smaRunBacktest cfg rows).strategyPeak[i]? = some (some q) →
        (smaRunBacktest cfg rows).strategyDrawdown[i]? = some (some d) →
        d ≤ 0 ∧ (d = 0 ↔ v = q)) ∧
      (∀ (i : ℕ) (v q d : ℝ),
        (smaRunBacktest cfg rows).bhLetfValue[i]? = some (some v) →
        (smaRunBacktest cfg rows).bhLetfPeak[i]? = some (some q) →
        (smaRunBacktest cfg rows).bhLetfDrawdown[i]? = some (some d) →
        d ≤ 0 ∧ (d = 0 ↔ v = q))) := by
  refine ⟨?_, ?_, ?_⟩
  · intro p prices f hok i c q d hc hq hd
    by_cases hemp : prices.isEmpty
    · rw [tsmCalculateSignals, if_pos hemp] at hok
      cases hok
    · rw [tsmCalculateSignals, if_neg hemp] at hok
      have hne : prices ≠ [] := fun h => hemp (by rw [h]; rfl)
      have hf : tsmSignalsFrame p prices = f := by injection hok
      subst hf
      have hhead := (tsmCum_head p prices hne).1
      exact drawdown_core _ 100 hhead (by norm_num) i c q d hc hq hd
  · intro p prices f hok i c q d hc hq hd
    by_cases hemp : prices.isEmpty
    · rw [rsiCalculateSignals, if_pos hemp] at hok
      cases hok
    · rw [rsiCalculateSignals, if_neg hemp] at hok
      have hne : prices ≠ [] := fun h => hemp (by rw [h]; rfl)
      have hf : rsiSignalsFrame p prices = f := by injection hok
      subst hf
      have hhead := (rsiCum_head p prices hne).1
      exact drawdown_core _ 100 hhead (by norm_num) i c q d hc hq hd
  · intro cfg rows hcap hrf hcl
    constructor
    · intro i v q d hv hq hd
      exact smaDrawdown_core _ (smaStrategyValue_pos cfg rows hcap hrf hcl)
        i v q d hv hq hd
    · intro i v q d hv hq hd
      exact smaDrawdown_core _ (smaBhValue_pos cfg rows hcap hcl)
        i v q d hv hq hd

/-- Claim C3, witness: the hypotheses are satisfied by a singleton price
series for TSM and RSI and by the default configuration with one
positive row for the SMA variant; the conclusions then hold at those
inputs. -/
theorem drawdownNonpositive_witness :
    (tsmCalculateSignals {} [some 100] = .ok (tsmSignalsFrame {} [some 100])) ∧
    (rsiCalculateSignals {} [some 100] = .ok (rsiSignalsFrame {} [some 100])) ∧
    ((0 : ℝ) < ({} : StrategyConfig).initialCapital) ∧
    ((0 : ℝ) < 1 + ({} : StrategyConfig).riskFreeRate) ∧
    (∀ r ∈ [(⟨0, 100, 50, 90, 1, 0⟩ : SMARow)], (0 : ℚ) < r.tradeClose) ∧
    (∀ (i : ℕ) (c q d : ℝ),
      (tsmStrategyReturnsFrame {} (tsmSignalsFrame {} [some 100])).cumulativeStrategy[i]? = some c →
      (tsmStrategyReturnsFrame {} (tsmSignalsFrame {} [some 100])).peak[i]? = some q →
      (tsmStrategyReturnsFrame {} (tsmSignalsFrame {} [some 100])).drawdown[i]? = some d →
      d ≤ 0 ∧ (d = 0 ↔ c = q)) ∧
    (∀ (i : ℕ) (v q d : ℝ),
      (smaRunBacktest {} [(⟨0, 100, 50, 90, 1, 0⟩ : SMARow)]).strategyValue[i]? = some (some v) →
      (smaRunBacktest {} [(⟨0, 100, 50, 90, 1, 0⟩ : SMARow)]).strategyPeak[i]? = some (some q) →
      (smaRunBacktest {} [(⟨0, 100, 50, 90, 1, 0⟩ : SMARow)]).strategyDrawdown[i]? = some (some d) →
      d ≤ 0 ∧ (d = 0 ↔ v = q)) := by
  refine ⟨rfl, rfl, by norm_num, by norm_num, ?_, ?_, ?_⟩
  · intro r hr
    simp only [List.mem_singleton] at hr
    subst hr; norm_num
  · exact drawdownNonpositive.1 {} [some 100] _ rfl
  · exact (drawdownNonpositive.2.2 {} [(⟨0, 100, 50, 90, 1, 0⟩ : SMARow)]
      (by norm_num) (by norm_num)
      (by intro r hr; simp only [List.mem_singleton] at hr; subst hr; norm_num)).1

/-- The default daily risk-free rate `(1.02)^(1/252) - 1` exceeds
`1/20000`, i.e. half a basis point — far beyond floating-point
tolerance. -/
theorem smaDailyRf_default_lb : (1 : ℝ) / 20000 < smaDailyRf {} := by
  have hpow : ((20001 / 20000 : ℝ)) ^ (252 : ℕ) < 51 / 50 := by norm_num
  have hlt : ((20001 / 20000 : ℝ) ^ (252 : ℕ)) ^ ((1 : ℝ) / 252) <
      ((51 : ℝ) / 50) ^ ((1 : ℝ) / 252) :=
    Real.rpow_lt_rpow (by positivity) hpow (by norm_num)
  have heq : ((20001 / 20000 : ℝ) ^ (252 : ℕ)) ^ ((1 : ℝ) / 252) =
      20001 / 20000 := by
    rw [← Real.rpow_natCast (20001 / 20000 : ℝ) 252, ← Real.rpow_mul (by norm_num)]
    norm_num
  rw [heq] at hlt
  have hcfg : smaDailyRf {} = ((51 : ℝ) / 50) ^ ((1 : ℝ) / 252) - 1 := by
    rw [smaDailyRf]
    norm_num
  rw [hcfg]
  linarith

/-- Claim C7, counterexample: with the default configuration (initial
capital `10000`, risk-free rate `2%`), the first value of the SMA/LETF
strategy curve is `10000 · (1 + daily_rf)`, which exceeds the configured
initial capital by more than `0.5` — not equal to the base within
floating-point tolerance. (The first valid benchmark value, at the next
row, is likewise `capital · (1 + r₁)`, not the capital.) -/
theorem cumulativeBaseSMA_counterexample :
    (smaRunBacktest {} [(⟨0, 100, 50, 90, 1, 0⟩ : SMARow)]).strategyValue.head? =
      some (some (({} : StrategyConfig).initialCapital *
        (1 * (1 + smaDailyRf {})))) ∧
    (10000 : ℝ) + 1 / 2 <
      ({} : StrategyConfig).initialCapital * (1 * (1 + smaDailyRf {})) ∧
    ({} : StrategyConfig).initialCapital * (1 * (1 + smaDailyRf {})) ≠
      ({} : StrategyConfig).initialCapital := by
  have hhead := smaValue_head {} [(⟨0, 100, 50, 90, 1, 0⟩ : SMARow)] (by simp)
  have hlb := smaDailyRf_default_lb
  have hcap : ({} : StrategyConfig).initialCapital = (10000 : ℝ) := rfl
  refine ⟨hhead.1, ?_, ?_⟩
  · rw [hcap]; nlinarith
  · rw [hcap]; nlinarith

/-- Claim C7, amended: the first value of the cumulative strategy and
benchmark curves is the base index `100` for the TSM and RSI families;
for the SMA/LETF variant the first strategy value is
`initial_capital · (1 + daily_rf)` — not the capital — and the first
buy-and-hold LETF value is missing (`NaN`), its curve starting only at
the second row. -/
theorem cumulativeBase :
    (∀ (p : TSMParameters) (prices : List (Option ℚ)) (f : TSMFrame),
      tsmCalculateSignals p prices = .ok f →
      (tsmStrategyReturnsFrame p f).cumulativeStrategy.head? = some 100 ∧
      (tsmStrategyReturnsFrame p f).cumulativeBenchmark.head? = some 100) ∧
    (∀ (p : RSIMeanReversionParameters) (prices : List (Option ℚ)) (f : RSIFrame),
      rsiCalculateSignals p prices = .ok f →
      (rsiReturnsFrame f (rsiSimulateTrades p f)).cumulativeStrategy.head? =
        some 100 ∧
      (rsiReturnsFrame f (rsiSimulateTrades p f)).cumulativeBenchmark.head? =
        some 100) ∧
    (∀ (cfg : StrategyConfig) (rows : List SMARow), rows ≠ [] →
      (smaRunBacktest cfg rows).strategyValue.head? =
        some (some (cfg.initialCapital * (1 * (1 + smaDailyRf cfg)))) ∧
      (smaRunBacktest cfg rows).bhLetfValue.head? = some none) := by
  refine ⟨?_, ?_, ?_⟩
  · intro p prices f hok
    by_cases hemp : prices.isEmpty
    · rw [tsmCalculateSignals, if_pos hemp] at hok
      cases hok
    · rw [tsmCalculateSignals, if_neg hemp] at hok
      have hne : prices ≠ [] := fun h => hemp (by rw [h]; rfl)
      have hf : tsmSignalsFrame p prices = f := by injection hok
      subst hf
      exact tsmCum_head p prices hne
  · intro p prices f hok
    by_cases hemp : prices.isEmpty
    · rw [rsiCalculateSignals, if_pos hemp] at hok
      cases hok
    · rw [rsiCalculateSignals, if_neg hemp] at hok
      have hne : prices ≠ [] := fun h => hemp (by rw [h]; rfl)
      have hf : rsiSignalsFrame p prices = f := by injection hok
      subst hf
      exact rsiCum_head p prices hne
  · intro cfg rows hne
    exact smaValue_head cfg rows hne

/-- Claim C7, witness: the hypotheses are satisfied by singleton
inputs. -/
theorem cumulativeBase_witness :
    (tsmCalculateSignals {} [some 100] = .ok (tsmSignalsFrame {} [some 100])) ∧
    (([(⟨0, 100, 50, 90, 1, 0⟩ : SMARow)] : List SMARow) ≠ []) ∧
    ((tsmStrategyReturnsFrame {} (tsmSignalsFrame {} [some 100])).cumulativeStrategy.head? =
      some 100) ∧
    ((smaRunBacktest {} [(⟨0, 100, 50, 90, 1, 0⟩ : SMARow)]).bhLetfValue.head? =
      some none) :=
  ⟨rfl, by simp,
    (cumulativeBase.1 {} [some 100] _ rfl).1,
    (cumulativeBase.2.2 {} [(⟨0, 100, 50, 90, 1, 0⟩ : SMARow)] (by simp)).2⟩

/-! ## Claim C8 — sequencing error on metrics -/

/-- Simulating trades over a frame without rows yields no trades. -/
theorem rsiSimulateTrades_nil (q : RSIMeanReversionParameters) (f : RSIFrame)
    (h : f.close = []) : rsiSimulateTrades q f = [] := by
  rw [rsiSimulateTrades, h]
  rfl

/-- Unfolding of `calculate_metrics` on an instance holding cached
signals but no trades and no returns: the method lazily simulates trades
and compiles returns instead of raising. -/
theorem rsiCalculateMetricsM_cached (q : RSIMeanReversionParameters)
    (f : RSIFrame) :
    rsiCalculateMetricsM ⟨q, some f, none, none⟩ =
      (match rsiSimulateTrades q f with
       | [] => pure (rsiZeroMetrics q)
       | _ :: _ =>
           match (rsiReturnsFrame f (rsiSimulateTrades q f)).cumulativeStrategy.getLast?,
                 (rsiReturnsFrame f (rsiSimulateTrades q f)).cumulativeBenchmark.getLast? with
           | some cs, some cb =>
               pure (rsiMetricsOf q (rsiSimulateTrades q f)
                 (rsiReturnsFrame f (rsiSimulateTrades q f)) cs cb)
           | _, _ =>
               .error "IndexError: single positional indexer is out-of-bounds") := by
  rfl

theorem rsiReturnsFrame_cumS_length (f : RSIFrame) (ts : List RSITrade) :
    (rsiReturnsFrame f ts).cumulativeStrategy.length = f.close.length := by
  show ((cumProd1 _).map _).length = _
  rw [List.length_map, cumProd1_length, List.length_map, List.length_range]

theorem rsiReturnsFrame_cumB_length (f : RSIFrame) (ts : List RSITrade) :
    (rsiReturnsFrame f ts).cumulativeBenchmark.length = f.returns.length := by
  show ((cumProd1 f.returns).map _).length = _
  rw [List.length_map, cumProd1_length]

/-- Claim C8, counterexample: on an `RSIMeanReversion` instance whose
signals are cached (computed from a one-point price series) but which
has produced no Returns Frame — and is given no returns argument —
`calculate_metrics` does not fail with a sequencing error: it lazily
simulates and compiles returns, and here returns the all-zero metrics
record. -/
theorem metricsSequencingRSILazy :
    rsiCalculateSignals {} [some 100] = .ok (rsiSignalsFrame {} [some 100]) ∧
    rsiCalculateMetricsM ⟨{}, some (rsiSignalsFrame {} [some 100]), none, none⟩ =
      .ok (rsiZeroMetrics {}) := by
  refine ⟨rfl, ?_⟩
  rw [rsiCalculateMetricsM_cached]
  have hraw : (rsiSignalsFrame {} [some 100]).rawSignal = [0] := by
    show (List.range 1).map (rsiRawSignalAt {} [some 100]) = [0]
    have h1 : List.range 1 = [0] := rfl
    rw [h1, List.map_singleton, rsiRawSignalAt_zero]
  have hts : rsiSimulateTrades {} (rsiSignalsFrame {} [some 100]) = [] := by
    rw [rsiSimulateTrades]
    have hclose : (rsiSignalsFrame {} [some 100]).close = [some 100] := rfl
    rw [hclose, hraw]
    rfl
  rw [hts]
  rfl

/-- Claim C8, amended: the TSM metrics calculator raises the sequencing
error `"No returns available"` when neither a cached nor an argument
Returns Frame exists. The RSI calculator does not: with a fully empty
instance it raises `"No signals available"` (propagated from
`simulate_trades` inside the lazy `calculate_returns` call), and with
cached signals but no Returns Frame it succeeds, lazily computing trades
and returns. -/
theorem metricsSequencing :
    (∀ (p : TSMParameters) (cachedSignals : Option TSMFrame),
      tsmCalculatePerformanceMetrics p cachedSignals none none =
        .error "No returns available. Call calculate_strategy_returns() first.") ∧
    (∀ q : RSIMeanReversionParameters,
      rsiCalculateMetricsM ⟨q, none, none, none⟩ =
        .error "No signals available. Call calculate_signals() first.") ∧
    (∀ (q : RSIMeanReversionParameters) (prices : List (Option ℚ)) (f : RSIFrame),
      rsiCalculateSignals q prices = .ok f →
      (rsiCalculateMetricsM ⟨q, some f, none, none⟩).isOk = true) := by
  refine ⟨fun p cs => rfl, fun q => rfl, ?_⟩
  intro q prices f hok
  by_cases hemp : prices.isEmpty
  · rw [rsiCalculateSignals, if_pos hemp] at hok
    cases hok
  · rw [rsiCalculateSignals, if_neg hemp] at hok
    have hf : rsiSignalsFrame q prices = f := by injection hok
    rw [rsiCalculateMetricsM_cached]
    cases hts : rsiSimulateTrades q f with
    | nil => rfl
    | cons t ts2 =>
        have hne : f.close ≠ [] := by
          intro h
          rw [rsiSimulateTrades_nil q f h] at hts
          cases hts
        have h1 : (rsiReturnsFrame f (t :: ts2)).cumulativeStrategy ≠ [] := by
          intro h0
          have hlen := rsiReturnsFrame_cumS_length f (t :: ts2)
          rw [h0] at hlen
          exact hne (List.length_eq_zero.mp hlen.symm)
        have h2 : (rsiReturnsFrame f (t :: ts2)).cumulativeBenchmark ≠ [] := by
          intro h0
          have hb := rsiReturnsFrame_cumB_length f (t :: ts2)
          rw [h0] at hb
          have hret : f.returns.length = f.close.length := by
            rw [← hf]
            show ((List.range prices.length).map _).length = prices.length
            rw [List.length_map, List.length_range]
          have hcl : f.close.length = 0 := by
            simp only [List.length_nil] at hb
            omega
          exact hne (List.length_eq_zero.mp hcl)
        obtain ⟨cs, hcs⟩ := Option.isSome_iff_exists.mp (List.getLast?_isSome.mpr h1)
        obtain ⟨cb, hcb⟩ := Option.isSome_iff_exists.mp (List.getLast?_isSome.mpr h2)
        rw [hcs, hcb]
        rfl

/-- Claim C8, witness: the RSI strategy with cached signals computed
from a one-day price series succeeds in computing metrics. -/
theorem metricsSequencing_witness :
    (rsiCalculateSignals {} [some 100] = .ok (rsiSignalsFrame {} [some 100])) ∧
    (rsiCalculateMetricsM
      ⟨{}, some (rsiSignalsFrame {} [some 100]), none, none⟩).isOk = true :=
  ⟨rfl, metricsSequencing.2.2 {} [some 100] (rsiSignalsFrame {} [some 100]) rfl⟩

/-! ## Claim C1 — no look-ahead -/

theorem getD_of_take_eq {α : Type} (l l' : List α) (d : α) (t j : ℕ)
    (hj : j < t) (h : l.take t = l'.take t) : l.getD j d = l'.getD j d := by
  rw [List.getD_eq_getElem?_getD, List.getD_eq_getElem?_getD]
  have h1 : l[j]? = (l.take t)[j]? := by
    rw [List.getElem?_take, if_pos hj]
  have h2 : l'[j]? = (l'.take t)[j]? := by
    rw [List.getElem?_take, if_pos hj]
  rw [h1, h2, h]

theorem pctChangeAt_prefix (l l' : List (Option ℚ)) (k t j : ℕ) (hj : j < t)
    (h : l.take t = l'.take t) : pctChangeAt l k j = pctChangeAt l' k j := by
  rw [pctChangeAt, pctChangeAt,
    getD_of_take_eq l l' none t j hj h,
    getD_of_take_eq l l' none t (j - k) (by omega) h]

/-- A rolling window ending at `i` only reads positions `≤ i`. -/
theorem rollingWindow_congr (w : ℕ) (l l' : List (Option ℚ)) (i : ℕ)
    (h : ∀ m, m ≤ i → l.getD m none = l'.getD m none) :
    rollingWindow w l i = rollingWindow w l' i := by
  rw [rollingWindow, rollingWindow]
  by_cases hc : 1 ≤ w ∧ w ≤ i + 1
  · rw [if_pos hc, if_pos hc]
    congr 1
    apply List.map_congr_left
    intro j hj
    rw [List.mem_range] at hj
    exact h (i + 1 + j - w) (by omega)
  · rw [if_neg hc, if_neg hc]

theorem rollingStd_congr (w : ℕ) (l l' : List (Option ℚ)) (i : ℕ)
    (h : ∀ m, m ≤ i → l.getD m none = l'.getD m none) :
    rollingStd w l i = rollingStd w l' i := by
  rw [rollingStd, rollingStd, rollingWindow_congr w l l' i h]

theorem tsmReturnsAt_prefix (prices prices' : List (Option ℚ)) (t j : ℕ)
    (hj : j < t) (h : prices.take t = prices'.take t) :
    tsmReturnsAt prices j = tsmReturnsAt prices' j :=
  pctChangeAt_prefix prices prices' 1 t j hj h

theorem tsmMomentumAt_prefix (p : TSMParameters) (prices prices' : List (Option ℚ))
    (t j : ℕ) (hj : j < t) (h : prices.take t = prices'.take t) :
    tsmMomentumAt p prices j = tsmMomentumAt p prices' j :=
  pctChangeAt_prefix prices prices' (tsmLookbackDays p) t j hj h

theorem tsmRawSignalAt_prefix (p : TSMParameters) (prices prices' : List (Option ℚ))
    (t j : ℕ) (hj : j < t) (h : prices.take t = prices'.take t) :
    tsmRawSignalAt p prices j = tsmRawSignalAt p prices' j := by
  rw [tsmRawSignalAt, tsmRawSignalAt, tsmMomentumAt_prefix p prices prices' t j hj h]

theorem take_map_range {β : Type} (g : ℕ → β) (n t : ℕ) (ht : t ≤ n) :
    ((List.range n).map g).take t = (List.range t).map g := by
  rw [← List.map_take, List.take_range, Nat.min_eq_left ht]

/-- The holding-period walk is causal: its output prefix of length `k`
is determined by the input prefix of length `k`. -/
theorem hpWalk_out_take (H : ℕ) :
    ∀ (l l' : List (Option ℤ)) (k i : ℕ) (st : HPState),
      l.take k = l'.take k →
      ((hpWalk H i st l).1).take k = ((hpWalk H i st l').1).take k := by
  intro l
  induction l with
  | nil =>
      intro l' k i st h
      cases k with
      | zero => simp
      | succ k2 =>
          simp only [List.take_nil] at h
          cases l' with
          | nil => rfl
          | cons b l2 => simp at h
  | cons a l2 ih =>
      intro l' k i st h
      cases k with
      | zero => simp
      | succ k2 =>
          cases l' with
          | nil => simp at h
          | cons b l2' =>
              simp only [List.take_succ_cons, List.cons.injEq] at h
              obtain ⟨hab, htail⟩ := h
              subst hab
              simp only [hpWalk]
              rw [List.take_succ_cons, List.take_succ_cons]
              rw [ih l2' k2 (i + 1) (hpStep H i st a).1 htail]

theorem tsmFilteredSignalAt_prefix (p : TSMParameters)
    (prices prices' : List (Option ℚ)) (t j : ℕ) (hj : j < t)
    (ht : t ≤ prices.length) (ht' : t ≤ prices'.length)
    (h : prices.take t = prices'.take t) :
    tsmFilteredSignalAt p prices j = tsmFilteredSignalAt p prices' j := by
  have hraw : (tsmRawSignals p prices).take t = (tsmRawSignals p prices').take t := by
    rw [tsmRawSignals, tsmRawSignals, take_map_range _ _ t ht,
      take_map_range _ _ t ht']
    apply List.map_congr_left
    intro m hm
    rw [List.mem_range] at hm
    exact tsmRawSignalAt_prefix p prices prices' t m hm h
  rw [tsmFilteredSignalAt, tsmFilteredSignalAt, tsmFilteredSignals,
    tsmFilteredSignals, applyHoldingPeriod, applyHoldingPeriod]
  by_cases hH : p.holdingPeriodDays ≤ 1
  · rw [if_pos hH, if_pos hH]
    exact getD_of_take_eq _ _ none t j hj hraw
  · rw [if_neg hH, if_neg hH]
    exact getD_of_take_eq _ _ none t j hj
      (hpWalk_out_take p.holdingPeriodDays _ _ t 0 hpInit hraw)

theorem tsmVolatilityAt_prefix (p : TSMParameters)
    (prices prices' : List (Option ℚ)) (t j : ℕ) (hj : j < t)
    (ht : t ≤ prices.length) (ht' : t ≤ prices'.length)
    (h : prices.take t = prices'.take t) :
    tsmVolatilityAt p prices j = tsmVolatilityAt p prices' j := by
  rw [tsmVolatilityAt, tsmVolatilityAt]
  rw [rollingStd_congr p.volatilityWindow _ _ j]
  intro m hm
  have hm' : m < t := by omega
  by_cases hmlen : m < prices.length
  · rw [getD_map_range _ none hmlen, getD_map_range _ none (by omega)]
    exact tsmReturnsAt_prefix prices prices' t m hm' h
  · omega

theorem tsmPositionSizeRawAt_prefix (p : TSMParameters)
    (prices prices' : List (Option ℚ)) (t j : ℕ) (hj : j < t)
    (ht : t ≤ prices.length) (ht' : t ≤ prices'.length)
    (h : prices.take t = prices'.take t) :
    tsmPositionSizeRawAt p prices j = tsmPositionSizeRawAt p prices' j := by
  rw [tsmPositionSizeRawAt, tsmPositionSizeRawAt,
    tsmVolatilityAt_prefix p prices prices' t j hj ht ht' h,
    tsmFilteredSignalAt_prefix p prices prices' t j hj ht ht' h]

theorem smaSignalAt_prefix (cfg : StrategyConfig) (sd sd' : List (ℕ × ℚ))
    (t j : ℕ) (hj : j < t) (ht : t ≤ sd.length) (ht' : t ≤ sd'.length)
    (h : sd.take t = sd'.take t) :
    smaSignalAt cfg sd j = smaSignalAt cfg sd' j := by
  have hget : sd.get? j = sd'.get? j := by
    rw [List.get?_eq_getElem?, List.get?_eq_getElem?,
      ← @List.getElem?_take_of_lt _ sd t j hj,
      ← @List.getElem?_take_of_lt _ sd' t j hj, h]
  have hsma : smaSmaAt cfg sd j = smaSmaAt cfg sd' j := by
    rw [smaSmaAt, smaSmaAt, rollingMean, rollingMean,
      rollingWindow_congr cfg.smaPeriod _ _ j]
    intro m hm
    rw [smaSignalCloses, smaSignalCloses]
    have : sd.getD m (0, 0) = sd'.getD m (0, 0) :=
      getD_of_take_eq sd sd' (0, 0) t m (by omega) h
    rw [List.getD_eq_getElem?_getD, List.getD_eq_getElem?_getD] at this ⊢
    rw [List.getElem?_map, List.getElem?_map]
    have hm' : sd[m]? = sd'[m]? := by
      rw [← @List.getElem?_take_of_lt _ sd t m (by omega),
        ← @List.getElem?_take_of_lt _ sd' t m (by omega), h]
    rw [hm']
  rw [smaSignalAt, smaSignalAt, hsma]
  cases h2 : sd'.get? j with
  | none => rw [hget, h2]
  | some x => rw [hget, h2]

/-- Claim C1: no look-ahead. For TSM, the signal and position-size
columns consumed on day `t+1` are the unshifted day-`t` values (the
one-day forward shift of lines 136-137), day `0` carries no position,
and the shifted columns at day `t` are determined by the price prefix
up to day `t-1` alone. For SMA/LETF, the strategy return on day `t+1`
selects between the LETF return and the risk-free rate using the
previous day's signal (line 151-155), day `0` uses the risk-free leg,
and the signal is determined by the signal-feed prefix through its
day. -/
theorem noLookahead :
    (∀ (p : TSMParameters) (prices : List (Option ℚ)) (t : ℕ),
      tsmSignalAt p prices (t + 1) = tsmFilteredSignalAt p prices t ∧
      tsmPositionSizeAt p prices (t + 1) = tsmPositionSizeRawAt p prices t ∧
      tsmSignalAt p prices 0 = none ∧
      tsmPositionSizeAt p prices 0 = none) ∧
    (∀ (p : TSMParameters) (prices prices' : List (Option ℚ)) (t : ℕ),
      t ≤ prices.length → t ≤ prices'.length →
      prices.take t = prices'.take t →
      tsmSignalAt p prices t = tsmSignalAt p prices' t ∧
      tsmPositionSizeAt p prices t = tsmPositionSizeAt p prices' t) ∧
    (∀ (cfg : StrategyConfig) (rows : List SMARow) (t : ℕ),
      smaStrategyReturnAt cfg rows 0 = some (smaDailyRf cfg) ∧
      smaStrategyReturnAt cfg rows (t + 1) =
        (if (rows.get? t).map (fun r => r.signal) = some 1
         then (smaTradeReturnAt rows (t + 1)).map (fun q => (q : ℝ))
         else some (smaDailyRf cfg))) ∧
    (∀ (cfg : StrategyConfig) (sd sd' : List (ℕ × ℚ)) (t j : ℕ), j < t →
      t ≤ sd.length → t ≤ sd'.length → sd.take t = sd'.take t →
      smaSignalAt cfg sd j = smaSignalAt cfg sd' j) := by
  refine ⟨?_, ?_, ?_, ?_⟩
  · intro p prices t
    exact ⟨rfl, rfl, rfl, rfl⟩
  · intro p prices prices' t ht ht' h
    cases t with
    | zero => exact ⟨rfl, rfl⟩
    | succ j =>
        constructor
        · show tsmFilteredSignalAt p prices j = tsmFilteredSignalAt p prices' j
          exact tsmFilteredSignalAt_prefix p prices prices' (j + 1) j
            (Nat.lt_succ_self j) ht ht' h
        · show tsmPositionSizeRawAt p prices j = tsmPositionSizeRawAt p prices' j
          exact tsmPositionSizeRawAt_prefix p prices prices' (j + 1) j
            (Nat.lt_succ_self j) ht ht' h
  · intro cfg rows t
    exact ⟨rfl, rfl⟩
  · intro cfg sd sd' t j hj ht ht' h
    exact smaSignalAt_prefix cfg sd sd' t j hj ht ht' h

/-- Claim C1, witness: two price series agreeing on their first entry
have the same shifted signal and position size on day `1`. -/
theorem noLookahead_witness :
    ((1 : ℕ) ≤ ([some 100, some 101] : List (Option ℚ)).length) ∧
    ((1 : ℕ) ≤ ([some 100, some 102] : List (Option ℚ)).length) ∧
    (([some 100, some 101] : List (Option ℚ)).take 1 =
      ([some 100, some 102] : List (Option ℚ)).take 1) ∧
    (tsmSignalAt {} [some 100, some 101] 1 = tsmSignalAt {} [some 100, some 102] 1 ∧
     tsmPositionSizeAt {} [some 100, some 101] 1 =
       tsmPositionSizeAt {} [some 100, some 102] 1) :=
  ⟨by decide, by decide, rfl,
    noLookahead.2.1 {} [some 100, some 101] [some 100, some 102] 1
      (by decide) (by decide) rfl⟩

/-! ## Claim C5 — holding-period monotonicity -/

/-- For a degenerate window `H ≤ 1` the walk output coincides with its
input, matching the early return of `_apply_holding_period`. -/
theorem hpWalk_le_one_eq (H : ℕ) (hH : H ≤ 1) :
    ∀ (l : List (Option ℤ)) (i : ℕ) (st : HPState),
      st.lastChangeIdx < max i 1 → (hpWalk H i st l).1 = l := by
  intro l
  induction l with
  | nil => intro i st _; rfl
  | cons a l2 ih =>
      intro i st hst
      have hE : i = 0 ∨ H ≤ i - st.lastChangeIdx := by omega
      cases a with
      | none =>
          have hstep : hpStep H i st none = (st, none) := rfl
          simp only [hpWalk, hstep]
          rw [ih (i + 1) st (by omega)]
      | some s =>
          by_cases hs : s = st.lastSignal
          · have hstep : hpStep H i st (some s) = (st, some st.lastSignal) := by
              simp only [hpStep]
              rw [if_neg (fun hc => hc.2 hs)]
            simp only [hpWalk, hstep]
            rw [ih (i + 1) st (by omega), hs]
          · have hstep : hpStep H i st (some s) =
                (⟨i, s, st.count + 1⟩, some s) := by
              simp only [hpStep]
              rw [if_pos ⟨hE, hs⟩]
            simp only [hpWalk, hstep]
            rw [ih (i + 1) ⟨i, s, st.count + 1⟩ (by simp)]

/-- One lockstep step preserves the coupling invariant on a binary
input value. -/
theorem hpStep_inv_some (H Hp : ℕ) (hH : H ≤ Hp) (i : ℕ) (st st' : HPState)
    (r : ℤ) (hr : r = 0 ∨ r = 1) (hinv : HPInv H Hp i st st') :
    HPInv H Hp (i + 1) (hpStep H i st (some r)).1 (hpStep Hp i st' (some r)).1 := by
  obtain ⟨h1, h2, h3, h4, h5⟩ := hinv
  by_cases hC : (i = 0 ∨ H ≤ i - st.lastChangeIdx) ∧ r ≠ st.lastSignal
  · have hst : (hpStep H i st (some r)).1 = ⟨i, r, st.count + 1⟩ := by
      simp only [hpStep]
      rw [if_pos hC]
    by_cases hC' : (i = 0 ∨ Hp ≤ i - st'.lastChangeIdx) ∧ r ≠ st'.lastSignal
    · have hst' : (hpStep Hp i st' (some r)).1 = ⟨i, r, st'.count + 1⟩ := by
        simp only [hpStep]
        rw [if_pos hC']
      rw [hst, hst']
      refine ⟨hr, hr, by simp, by simp, ?_⟩
      simp only [hpD, hpW] at h5 ⊢
      split_ifs at h5 ⊢ <;> omega
    · have hst' : (hpStep Hp i st' (some r)).1 = st' := by
        simp only [hpStep]
        rw [if_neg hC']
      rw [hst, hst']
      refine ⟨hr, h2, by simp, by omega, ?_⟩
      simp only [hpD, hpW] at h5 ⊢
      split_ifs at h5 ⊢ <;> omega
  · have hst : (hpStep H i st (some r)).1 = st := by
      simp only [hpStep]
      rw [if_neg hC]
    by_cases hC' : (i = 0 ∨ Hp ≤ i - st'.lastChangeIdx) ∧ r ≠ st'.lastSignal
    · have hst' : (hpStep Hp i st' (some r)).1 = ⟨i, r, st'.count + 1⟩ := by
        simp only [hpStep]
        rw [if_pos hC']
      rw [hst, hst']
      refine ⟨h1, hr, by omega, by simp, ?_⟩
      simp only [hpD, hpW] at h5 ⊢
      split_ifs at h5 ⊢ <;> omega
    · have hst' : (hpStep Hp i st' (some r)).1 = st' := by
        simp only [hpStep]
        rw [if_neg hC']
      rw [hst, hst']
      refine ⟨h1, h2, by omega, by omega, ?_⟩
      simp only [hpD, hpW] at h5 ⊢
      split_ifs at h5 ⊢ <;> omega

/-- One lockstep step preserves the coupling invariant on a binary or
missing input value. -/
theorem hpStep_inv (H Hp : ℕ) (hH : H ≤ Hp) (i : ℕ) (st st' : HPState)
    (sig : Option ℤ) (hsig : sig = none ∨ sig = some 0 ∨ sig = some 1)
    (hinv : HPInv H Hp i st st') :
    HPInv H Hp (i + 1) (hpStep H i st sig).1 (hpStep Hp i st' sig).1 := by
  rcases hsig with rfl | rfl | rfl
  · show HPInv H Hp (i + 1) st st'
    obtain ⟨h1, h2, h3, h4, h5⟩ := hinv
    refine ⟨h1, h2, by omega, by omega, ?_⟩
    simp only [hpD, hpW] at h5 ⊢
    split_ifs at h5 ⊢ <;> omega
  · exact hpStep_inv_some H Hp hH i st st' 0 (Or.inl rfl) hinv
  · exact hpStep_inv_some H Hp hH i st st' 1 (Or.inr rfl) hinv

/-- The walk preserves the coupling invariant over a binary stream. -/
theorem hpWalk_inv (H Hp : ℕ) (hH : H ≤ Hp) :
    ∀ (l : List (Option ℤ)) (i : ℕ) (st st' : HPState),
      (∀ x ∈ l, x = none ∨ x = some 0 ∨ x = some 1) →
      HPInv H Hp i st st' →
      HPInv H Hp (i + l.length) ((hpWalk H i st l).2) ((hpWalk Hp i st' l).2) := by
  intro l
  induction l with
  | nil =>
      intro i st st' _ hinv
      simpa using hinv
  | cons a l2 ih =>
      intro i st st' hl hinv
      simp only [hpWalk]
      rw [show i + (a :: l2).length = (i + 1) + l2.length by
        simp only [List.length_cons]; omega]
      exact ih (i + 1) (hpStep H i st a).1 (hpStep Hp i st' a).1
        (fun x hx => hl x (List.mem_cons_of_mem a hx))
        (hpStep_inv H Hp hH i st st' a (hl a (List.mem_cons_self a l2)) hinv)

/-- On a binary (or missing) signal stream, the accepted-change count
of the holding-period walk is antitone in the window length. -/
theorem hpChangeCount_binary_antitone (H Hp : ℕ) (hH : H ≤ Hp)
    (l : List (Option ℤ)) (hl : ∀ x ∈ l, x = none ∨ x = some 0 ∨ x = some 1) :
    hpChangeCount Hp l ≤ hpChangeCount H l := by
  have h0 : HPInv H Hp 0 hpInit hpInit := by
    refine ⟨Or.inl rfl, Or.inl rfl, by simp [hpInit], by simp [hpInit], ?_⟩
    simp [hpD, hpW, hpInit]
  have h := hpWalk_inv H Hp hH l 0 hpInit hpInit hl h0
  have h5 := h.2.2.2.2
  unfold hpChangeCount
  omega

/-- In `long_cash` mode the raw signal column is binary and total. -/
theorem tsmRawSignals_binary (p : TSMParameters) (prices : List (Option ℚ))
    (hkind : p.positionKind = TSMPositionKind.long_cash) :
    ∀ x ∈ tsmRawSignals p prices, x = none ∨ x = some 0 ∨ x = some 1 := by
  intro x hx
  rw [tsmRawSignals, List.mem_map] at hx
  obtain ⟨j, _, rfl⟩ := hx
  simp only [tsmRawSignalAt, hkind]
  cases holt : olt (some 0) (tsmMomentumAt p prices j) with
  | false => right; left; rw [if_neg (by simp [holt])]
  | true => right; right; rw [if_pos (by simp [holt])]

/-- Claim C5, counterexample: with the `long_short` position type the
accepted-change count is not antitone in `holding_period_days`. On a
28-day price series (21 flat days of warm-up for a one-month lookback,
then 101, 99, 99, 100, 99, 99, 99) raising the holding period from 2 to
3 days raises the number of accepted signal changes from 2 to 3: the
3-day window blocks the early flip to -1, leaving the position at +1,
so the later momentum values -1 and 0 both register as fresh changes. -/
theorem holdingPeriodNotAntitone :
    ∃ (p : TSMParameters) (prices : List (Option ℚ)) (Hp : ℕ),
      p.holdingPeriodDays ≤ Hp ∧
      tsmSignalChangeCount p prices <
        tsmSignalChangeCount (tsmWithHolding p Hp) prices := by
  refine ⟨⟨1, 2, 21, 1 / 10, true, TSMPositionKind.long_short, 1 / 50⟩,
    List.replicate 21 (some 100) ++
      [some 101, some 99, some 99, some 100, some 99, some 99, some 99],
    3, by decide, ?_⟩
  with_unfolding_all decide

/-- Claim C5, amended: in `long_cash` mode (binary signals) increasing
`holding_period_days` never increases the number of accepted signal
changes of the holding-period filter on a fixed price series, with all
other parameters fixed. -/
theorem holdingPeriodMonotonicity (p : TSMParameters) (prices : List (Option ℚ))
    (Hp : ℕ) (hH : p.holdingPeriodDays ≤ Hp)
    (hkind : p.positionKind = TSMPositionKind.long_cash) :
    tsmSignalChangeCount (tsmWithHolding p Hp) prices ≤
      tsmSignalChangeCount p prices := by
  show hpChangeCount Hp (tsmRawSignals p prices) ≤
    hpChangeCount p.holdingPeriodDays (tsmRawSignals p prices)
  exact hpChangeCount_binary_antitone p.holdingPeriodDays Hp hH _
    (tsmRawSignals_binary p prices hkind)

/-- Claim C5, witness: the amended antitonicity applied to the default
parameters (long/cash, 21-day holding period) against a 22-day one. -/
theorem holdingPeriodMonotonicity_witness :
    (({} : TSMParameters).holdingPeriodDays ≤ 22) ∧
    (({} : TSMParameters).positionKind = TSMPositionKind.long_cash) ∧
    tsmSignalChangeCount (tsmWithHolding {} 22) [some 100, some 101] ≤
      tsmSignalChangeCount {} [some 100, some 101] :=
  ⟨by decide, rfl,
    holdingPeriodMonotonicity {} [some 100, some 101] 22 (by decide) rfl⟩

end StockTrend
